import Mathlib

/-!
# userd: reconciliation of directory users with host accounts

A shallow embedding of the Go sources `gdirectory.go`, `main.go`, `os.go` and
`files.go`, followed by theorems about the embedded functions.

Conventions of the embedding

* A Go `string` or `[]byte` holding text is a `GoString`, the list of its
  runes.  Byte-wise operations of the Go library (`Split`, `Replace`,
  `HasPrefix`, comparison) coincide with the rune-wise ones on well-formed
  UTF-8, which is what the embedding covers.
* A Go `map[string]T` is an association list with at most one binding per key;
  the order of the list is the order in which a `range` loop visits the map.
  Theorems quantify over the list, hence over every iteration order.
* `panic`, `log.Panicf`, `log.Fatalf` and run-time panics end the run; they are
  the `Abort` values.  A Go `error` result is the `err` outcome.
* Calls that leave the process (commands, files, network) go through a record
  of primitives over an arbitrary world state; every call is appended to a log
  together with what it returned.
* Logging (`log.Printf`) and the deferred `resp.Body.Close()` have no effect on
  what the functions return or on the calls they make, and are left out.
-/

namespace Userd

/-! ## Go strings -/

/-- A Go string, as the list of its runes. -/
abbrev GoString := List Char

/-- Rune test of Go's `unicode.IsSpace`: the Unicode White_Space property. -/
def isSpace (c : Char) : Bool :=
  let n := c.toNat
  (9 ≤ n && n ≤ 13) || n == 32 || n == 0x85 || n == 0xA0 || n == 0x1680 ||
  (0x2000 ≤ n && n ≤ 0x200A) || n == 0x2028 || n == 0x2029 || n == 0x202F ||
  n == 0x205F || n == 0x3000

/-- Go's `strings.TrimSpace` / `bytes.TrimSpace`: leading and trailing white space removed. -/
def trimSpace (s : GoString) : GoString :=
  ((s.dropWhile isSpace).reverse.dropWhile isSpace).reverse

/-- Go's `strings.ToLower`, rune by rune; `lowerRune` stands for the case table
`unicode.ToLower` of the Go library. -/
def toLower (lowerRune : Char → Char) (s : GoString) : GoString :=
  s.map lowerRune

/-- Case table restricted to ASCII: what `unicode.ToLower` does on runes below 128. -/
def asciiLower (c : Char) : Char :=
  if 65 ≤ c.toNat ∧ c.toNat ≤ 90 then Char.ofNat (c.toNat + 32) else c

/-- Go's `strings.HasPrefix`. -/
def hasPrefix : GoString → GoString → Bool
  | _, [] => true
  | [], _ :: _ => false
  | c :: s, p :: ps => if c = p then hasPrefix s ps else false

/-- Go's `strings.Replace(s, old, new, 1)` for a non-empty `old`: the first
occurrence of `old` is replaced. -/
def replaceFirst (old new : GoString) : GoString → GoString
  | [] => []
  | c :: rest =>
    if hasPrefix (c :: rest) old then new ++ (c :: rest).drop old.length
    else c :: replaceFirst old new rest

/-- Worker of `replaceAll`; `skip` counts the runes of a matched `old` still to be passed over. -/
def replaceAllAux (old new : GoString) : Nat → GoString → GoString
  | _, [] => []
  | skip + 1, _ :: rest => replaceAllAux old new skip rest
  | 0, c :: rest =>
    if hasPrefix (c :: rest) old then new ++ replaceAllAux old new (old.length - 1) rest
    else c :: replaceAllAux old new 0 rest

/-- Go's `strings.ReplaceAll(s, old, new)` for a non-empty `old`. -/
def replaceAll (s old new : GoString) : GoString :=
  replaceAllAux old new 0 s

/-- Worker of `split`; `cur` is the current piece, reversed. -/
def splitAux (sep : GoString) : Nat → GoString → GoString → List GoString
  | _, [], cur => [cur.reverse]
  | skip + 1, _ :: rest, cur => splitAux sep skip rest cur
  | 0, c :: rest, cur =>
    if hasPrefix (c :: rest) sep then cur.reverse :: splitAux sep (sep.length - 1) rest []
    else splitAux sep 0 rest (c :: cur)

/-- Go's `strings.Split(s, sep)` / `bytes.Split` for a non-empty `sep`. -/
def split (s sep : GoString) : List GoString :=
  splitAux sep 0 s []

/-- Go's `strings.Join`. -/
def join : List GoString → GoString → GoString
  | [], _ => []
  | [a], _ => a
  | a :: b :: rest, sep => a ++ sep ++ join (b :: rest) sep

/-- Byte order of Go strings (`<=`), which on well-formed UTF-8 is the order of the rune lists. -/
def strLe : GoString → GoString → Bool
  | [], _ => true
  | _ :: _, [] => false
  | a :: s, b :: t => if a.toNat < b.toNat then true else if b.toNat < a.toNat then false else strLe s t

/-- Insertion into an ascending list. -/
def insertSorted (x : GoString) : List GoString → List GoString
  | [] => [x]
  | y :: ys => if strLe x y then x :: y :: ys else y :: insertSorted x ys

/-- Go's `sort.Strings`: the ascending rearrangement of the slice. -/
def sortStrings : List GoString → List GoString
  | [] => []
  | x :: xs => insertSorted x (sortStrings xs)

/-! ## Go maps -/

/-- Lookup `m[k]` with the comma-ok result. -/
def mapGet {β : Type} (m : List (GoString × β)) (k : GoString) : Option β :=
  match m with
  | [] => none
  | (k', v) :: rest => if k' = k then some v else mapGet rest k

/-- Assignment `m[k] = v`. -/
def mapSet {β : Type} (m : List (GoString × β)) (k : GoString) (v : β) : List (GoString × β) :=
  match m with
  | [] => [(k, v)]
  | (k', v') :: rest => if k' = k then (k, v) :: rest else (k', v') :: mapSet rest k v

/-! ## Ways a run ends early -/

/-- The panics and fatal exits of the program. -/
inductive Abort where
  | unknownMapping (directoryGroup : GoString)
  | invalidGroupName (group : GoString)
  | unexpectedUID (field : GoString)
  | unexpectedGID (field : GoString)
  | indexOutOfRange (index len : Nat)
  | emptyHome (username : GoString)
  deriving DecidableEq, Repr

deriving instance DecidableEq for Except

/-! ## `main.go`: local users -/

/-- Struct `localUser`.  `groups` is `none` for the nil map. -/
structure localUser where
  Username : GoString
  FullName : GoString
  Email : GoString
  CanHavePassword : Bool
  SSHKeys : Option (List GoString)
  groups : Option (List GoString)
  SSHKeysUrl : GoString
  Home : GoString
  UID : Int
  GID : Int
  deriving DecidableEq, Repr

/-- Match of the regular expression `^[a-zA-Z]+$`. -/
def matchesGroupName (group : GoString) : Bool :=
  group ≠ [] && group.all (fun c => (97 ≤ c.toNat && c.toNat ≤ 122) || (65 ≤ c.toNat && c.toNat ≤ 90))

/-- Method `(*localUser).addGroup`: the receiver after the call, or the fatal exit. -/
def localUser.addGroup (u : localUser) (group : GoString) : Except Abort localUser :=
  if !matchesGroupName group then .error (.invalidGroupName group)
  else
    let set := match u.groups with
      | none => []
      | some gs => gs
    .ok { u with groups := some (if group ∈ set then set else set ++ [group]) }

/-- Method `(*localUser).getGroups`.  A Go map is visited in no fixed order; the
list is given here in the order the set was filled, and its only consumer,
`ensureGroups`, sorts it before use. -/
def localUser.getGroups (u : localUser) : List GoString :=
  match u.groups with
  | none => []
  | some gs => gs

/-- Method `(*localUser).gecosString`. -/
def localUser.gecosString (u : localUser) : GoString :=
  if u.Email ≠ [] ∧ u.FullName ≠ [] then
    replaceAll u.FullName ",".toList "_".toList ++ " <".toList ++ u.Email ++ ">,,,".toList
  else if u.FullName ≠ [] then u.FullName
  else if u.Email ≠ [] then u.Email
  else []

/-! ## `gdirectory.go`: merging directory groups -/

/-- Struct `directoryUser`. -/
structure directoryUser where
  FullName : GoString
  GithubUsername : GoString
  Email : GoString
  deriving DecidableEq, Repr

/-- The string literal `"https://github.com/"` of `mergeUsers`. -/
def githubPrefix : GoString := "https://github.com/".toList

/-- The expression computing `localName` in `mergeUsers`:
`strings.Replace(strings.ToLower(u.GithubUsername), "https://github.com/", "", 1)`. -/
def normalize (lowerRune : Char → Char) (handle : GoString) : GoString :=
  replaceFirst githubPrefix [] (toLower lowerRune handle)

/-- The struct literal `localUser{Username: localName, FullName: u.FullName, Email: u.Email,
CanHavePassword: false, SSHKeys: nil}` of `mergeUsers`; the other fields are zero. -/
def newLocalUser (localName : GoString) (u : directoryUser) : localUser :=
  { Username := localName, FullName := u.FullName, Email := u.Email, CanHavePassword := false,
    SSHKeys := none, groups := none, SSHKeysUrl := [], Home := [], UID := 0, GID := 0 }

/-- The loop `for _, localGroup := range localGroups { local.addGroup(localGroup) }`. -/
def addGroups (u : localUser) : List GoString → Except Abort localUser
  | [] => .ok u
  | g :: rest =>
    match u.addGroup g with
    | .error e => .error e
    | .ok u' => addGroups u' rest

/-- Body of the inner loop of `mergeUsers` for one member `u` of `directoryGroup`.
The variable `local` is a copy of the stored record; a record is always stored
with a nil `groups` map, so `addGroup` allocates the set on the copy and the
stored record does not see it. -/
def mergeMember (lowerRune : Char → Char) (groupMapping : List (GoString × List GoString))
    (directoryGroup : GoString) (usermap : List (GoString × localUser)) (u : directoryUser) :
    Except Abort (List (GoString × localUser)) :=
  if trimSpace u.GithubUsername = [] then .ok usermap
  else
    let localName := normalize lowerRune u.GithubUsername
    let found := mapGet usermap localName
    let fresh := newLocalUser localName u
    let loc := match found with
      | some l => l
      | none => fresh
    let usermap' := match found with
      | some _ => usermap
      | none => mapSet usermap localName fresh
    match mapGet groupMapping directoryGroup with
    | none => .error (.unknownMapping directoryGroup)
    | some localGroups =>
      match addGroups loc localGroups with
      | .error e => .error e
      | .ok _ => .ok usermap'

/-- Inner loop of `mergeUsers`: the members of one directory group. -/
def mergeGroup (lowerRune : Char → Char) (groupMapping : List (GoString × List GoString))
    (directoryGroup : GoString) :
    List (GoString × localUser) → List directoryUser → Except Abort (List (GoString × localUser))
  | usermap, [] => .ok usermap
  | usermap, u :: rest =>
    match mergeMember lowerRune groupMapping directoryGroup usermap u with
    | .error e => .error e
    | .ok usermap' => mergeGroup lowerRune groupMapping directoryGroup usermap' rest

/-- Outer loop of `mergeUsers`. -/
def mergeLoop (lowerRune : Char → Char) (groupMapping : List (GoString × List GoString)) :
    List (GoString × localUser) → List (GoString × List directoryUser) →
    Except Abort (List (GoString × localUser))
  | usermap, [] => .ok usermap
  | usermap, (directoryGroup, ulist) :: rest =>
    match mergeGroup lowerRune groupMapping directoryGroup usermap ulist with
    | .error e => .error e
    | .ok usermap' => mergeLoop lowerRune groupMapping usermap' rest

/-- Function `mergeUsers`. -/
def mergeUsers (lowerRune : Char → Char) (users : List (GoString × List directoryUser))
    (groupMapping : List (GoString × List GoString)) : Except Abort (List (GoString × localUser)) :=
  mergeLoop lowerRune groupMapping [] users

/-! ## Test data of `main_test.go` -/

/-- Variable `groupMapping` of `TestUsersMerged`. -/
def testGroupMapping : List (GoString × List GoString) :=
  [("devops@twisto.cz".toList, ["sudo".toList, "dev".toList]),
   ("developers@twisto.cz".toList, ["dev".toList])]

/-- Variable `fetchedUsers` of `TestUsersMerged`. -/
def testFetchedUsers : List (GoString × List directoryUser) :=
  [("devops@twisto.cz".toList,
      [⟨"Pepa z Depa".toList, "https://github.com/pepazd".toList, "pepa@depo.cz".toList⟩,
       ⟨"Romulus".toList, "https://github.com/romulus".toList, "romulus@roma.it".toList⟩]),
   ("developers@twisto.cz".toList,
      [⟨"Pepa z Depa".toList, "pepazd".toList, "pepa@depo.cz".toList⟩,
       ⟨"Remus".toList, "remus".toList, "remus@roma.it".toList⟩])]

/-- Go's `strings.Contains`. -/
def contains : GoString → GoString → Bool
  | [], sub => hasPrefix [] sub
  | c :: rest, sub => hasPrefix (c :: rest) sub || contains rest sub

/-- Relation between the user map before (`m`) and after (`m'`) merging the
members selected by `S`: keys stay unique, every binding of `m'` is a binding
of `m` or a record created for a member of `S` with a non-blank handle, no
binding is lost, and every member of `S` with a non-blank handle has a binding. -/
def Extends (lowerRune : Char → Char) (S : directoryUser → Prop)
    (m m' : List (GoString × localUser)) : Prop :=
  ((m.map Prod.fst).Nodup → (m'.map Prod.fst).Nodup) ∧
  (∀ k v, mapGet m' k = some v → mapGet m k = some v ∨
    (v.Username = k ∧ v.groups = none ∧
      ∃ u, S u ∧ trimSpace u.GithubUsername ≠ [] ∧ normalize lowerRune u.GithubUsername = k)) ∧
  (∀ k, (mapGet m k).isSome = true → (mapGet m' k).isSome = true) ∧
  (∀ u, S u → trimSpace u.GithubUsername ≠ [] →
    (mapGet m' (normalize lowerRune u.GithubUsername)).isSome = true)

/-! ## `os.go`: passwd records -/

/-- Struct `PasswdEntry`, a line of `/etc/passwd`. -/
structure PasswdEntry where
  Username : GoString
  UID : Int
  GID : Int
  Gecos : GoString
  Home : GoString
  Shell : GoString
  deriving DecidableEq, Repr

/-- Indexing `xs[i]` of a slice, with the run-time panic when `i` is out of range. -/
def index {α : Type} (xs : List α) (i : Nat) : Except Abort α :=
  match xs.get? i with
  | some x => .ok x
  | none => .error (.indexOutOfRange i xs.length)

/-- Value of a string of decimal digits, most significant first (`acc` is the value so far). -/
def digitsValue (acc : Nat) : GoString → Nat
  | [] => acc
  | c :: rest => digitsValue (acc * 10 + (c.toNat - 48)) rest

/-- Test that every rune is one of `0` to `9`. -/
def allDigits (s : GoString) : Bool :=
  s.all (fun c => 48 ≤ c.toNat && c.toNat ≤ 57)

/-- Go's `strconv.ParseInt(s, 10, 32)`, with `none` for a returned error: an
optional sign, then one or more decimal digits, the value within the signed
32-bit range. -/
def parseInt32 (s : GoString) : Option Int :=
  match s with
  | [] => none
  | c :: rest =>
    let neg : Bool := c = '-'
    let body := if c = '+' ∨ c = '-' then rest else c :: rest
    if body = [] ∨ allDigits body = false then none
    else
      let un := digitsValue 0 body
      if neg = false ∧ un ≥ 2147483648 then none
      else if neg = true ∧ un > 2147483648 then none
      else some (if neg then - (un : Int) else (un : Int))

/-- Function `parsePasswdEntry`. -/
def parsePasswdEntry (line : GoString) : Except Abort PasswdEntry :=
  let fields := split (trimSpace line) ":".toList
  match index fields 0 with
  | .error a => .error a
  | .ok username =>
    match index fields 2 with
    | .error a => .error a
    | .ok uidField =>
      match parseInt32 uidField with
      | none => .error (.unexpectedUID uidField)
      | some uid =>
        match index fields 3 with
        | .error a => .error a
        | .ok gidField =>
          match parseInt32 gidField with
          | none => .error (.unexpectedGID gidField)
          | some gid =>
            match (if fields.length > 6 then index fields 6 else .ok []) with
            | .error a => .error a
            | .ok shell =>
              match index fields 4 with
              | .error a => .error a
              | .ok gecos =>
                match index fields 5 with
                | .error a => .error a
                | .ok home =>
                  .ok { Username := username, UID := uid, GID := gid, Gecos := gecos,
                        Home := home, Shell := shell }

/-- A decimal number in the sense of the passwd format: one or more digits. -/
def isDecimal (s : GoString) : Bool :=
  decide (s ≠ []) && allDigits s

/-! ## The world outside the process -/

/-- A call that leaves the process. -/
inductive Call where
  | exec (name : GoString) (args : List GoString)
  | httpGet (url : GoString)
  | readBody (url : GoString)
  | stat (path : GoString)
  | mkdir (path : GoString) (perm : Nat)
  | chown (path : GoString) (uid gid : Int)
  | readFile (path : GoString)
  | tempFile (dir pattern : GoString)
  | write (name data : GoString)
  | close (name : GoString)
  | remove (name : GoString)
  | rename (oldpath newpath : GoString)
  deriving DecidableEq, Repr

/-- Error values of the library that the program tells apart: `os.IsNotExist` or any other. -/
inductive SysErr where
  | notExist
  | other
  deriving DecidableEq, Repr

/-- What a call returns: the error, if any; the bytes (command output, file
content, response body, or name of the temporary file); the HTTP status code. -/
structure Reply where
  err : Option SysErr
  data : GoString
  status : Nat
  deriving DecidableEq, Repr

/-- The host a run works on: the system calls as a transition of an arbitrary
world state, the path functions of `path/filepath`, and the order in which
`range` visits the map of existing users. -/
structure Host (W : Type) where
  os : W → Call → Reply × W
  pathJoin : List GoString → GoString
  pathDir : GoString → GoString
  pathBase : GoString → GoString
  rangeOrder : List (GoString × PasswdEntry) → List (GoString × PasswdEntry)

/-- State of a run: the world, and the calls made so far with their replies. -/
structure Run (W : Type) where
  world : W
  log : List (Call × Reply)

/-- Go `error` values built by the program. -/
inductive GoError where
  | sys (e : SysErr)
  | gettingSystemUsers
  | creatingUser (username : GoString)
  | removingUser (username : GoString)
  | findingGroups
  | modifyingGroups
  | lockingUser (username : GoString)
  | shadowInfo (username : GoString)
  | enabledPassword (username : GoString)
  | hasAuthorizedKeys (username path : GoString)
  | settingUpGroups (username : GoString) (cause : GoError)
  | gettingKeys (username url : GoString)
  | keysStatus (username url : GoString)
  | readingKeys (username url : GoString)
  deriving DecidableEq, Repr

/-- How a function ends: a value, a returned `error`, or a panic or fatal exit. -/
inductive Outcome (α : Type) where
  | ok (a : α)
  | err (e : GoError)
  | abort (a : Abort)
  deriving DecidableEq, Repr

/-- A function of the program that makes calls. -/
def Prog (W α : Type) : Type := Run W → Outcome α × Run W

/-- Return of a value. -/
def Prog.pure {W α : Type} (a : α) : Prog W α := fun s => (.ok a, s)

/-- Sequencing: an `error` or an abort of the first part ends the whole. -/
def Prog.bind {W α β : Type} (p : Prog W α) (f : α → Prog W β) : Prog W β := fun s =>
  match p s with
  | (.ok a, s1) => f a s1
  | (.err e, s1) => (.err e, s1)
  | (.abort a, s1) => (.abort a, s1)

instance {W : Type} : Monad (Prog W) where
  pure := Prog.pure
  bind := Prog.bind

/-- Statement `return err`. -/
def fail {W α : Type} (e : GoError) : Prog W α := fun s => (.err e, s)

/-- A panic or fatal exit. -/
def abort {W α : Type} (a : Abort) : Prog W α := fun s => (.abort a, s)

/-- A pure step that may panic. -/
def orAbort {W α : Type} (x : Except Abort α) : Prog W α :=
  match x with
  | .ok a => Prog.pure a
  | .error a => abort a

/-- One call: the world answers and moves on, the call is logged with its reply. -/
def sys {W : Type} (h : Host W) (c : Call) : Prog W Reply := fun s =>
  match h.os s.world c with
  | (reply, world) => (.ok reply, ⟨world, s.log ++ [(c, reply)]⟩)

/-- Wrapping of a returned error, as in `fmt.Errorf("...%w", err)`. -/
def wrapErr {W α : Type} (f : GoError → GoError) (p : Prog W α) : Prog W α := fun s =>
  match p s with
  | (.err e, s1) => (.err (f e), s1)
  | r => r

/-! ## `os.go`: account commands -/

/-- The command `usermod --groups <joined> <user>` of `ensureGroups`. -/
def usermodGroups (joined user : GoString) : Call :=
  .exec "usermod".toList ["--groups".toList, joined, user]

/-- The command `usermod --lock <user>` of `ensureNoPassword`. -/
def usermodLock (user : GoString) : Call :=
  .exec "usermod".toList ["--lock".toList, user]

/-- The command `getent shadow <user>` of `hasEnabledPassword`. -/
def getentShadow (user : GoString) : Call :=
  .exec "getent".toList ["shadow".toList, user]

/-- The command `deluser --remove-all-files --backup <user>` of `removeUser`. -/
def deluser (user : GoString) : Call :=
  .exec "deluser".toList ["--remove-all-files".toList, "--backup".toList, user]

/-- The command `groups <user>` of `ensureGroups`. -/
def groupsOf (user : GoString) : Call :=
  .exec "groups".toList [user]

/-- The command `getent passwd` of `getExistingUsers`. -/
def getentAll : Call :=
  .exec "getent".toList ["passwd".toList]

/-- The command `getent passwd <user>` of `addUser`. -/
def getentPasswd (user : GoString) : Call :=
  .exec "getent".toList ["passwd".toList, user]

/-- The command `adduser --disabled-password --gecos <gecos> [--home <home>] <user>` of `addUser`. -/
def adduser (gecosString home username : GoString) : Call :=
  .exec "adduser".toList (["--disabled-password".toList, "--gecos".toList, gecosString]
    ++ (if home ≠ [] then ["--home".toList, home] else []) ++ [username])

/-- Function `addUser`. -/
def addUser {W : Type} (h : Host W) (username gecosString home : GoString) : Prog W PasswdEntry := do
  let r ← sys h (adduser gecosString home username)
  if r.err ≠ none then fail (.creatingUser username)
  else
    let q ← sys h (getentPasswd username)
    if q.err ≠ none then fail .gettingSystemUsers
    else orAbort (parsePasswdEntry q.data)

/-- Function `removeUser`. -/
def removeUser {W : Type} (h : Host W) (u : GoString) : Prog W Unit := do
  let r ← sys h (deluser u)
  if r.err ≠ none then fail (.removingUser u) else pure ()

/-- The loop of `getExistingUsers` over the lines of the `getent passwd` output. -/
def collectUsers : List (GoString × PasswdEntry) → List GoString →
    Except Abort (List (GoString × PasswdEntry))
  | existingUsers, [] => .ok existingUsers
  | existingUsers, line :: rest =>
    if trimSpace line = [] then collectUsers existingUsers rest
    else
      match parsePasswdEntry line with
      | .error a => .error a
      | .ok e => collectUsers (mapSet existingUsers e.Username e) rest

/-- Function `getExistingUsers`. -/
def getExistingUsers {W : Type} (h : Host W) : Prog W (List (GoString × PasswdEntry)) := do
  let r ← sys h getentAll
  if r.err ≠ none then fail .gettingSystemUsers
  else orAbort (collectUsers [] (split r.data "\n".toList))

/-- The loop of `ensureGroups` over the indices of `currentGroups`; the two
slices have the same length, so the loop runs over the pairs
`(currentGroups[i], wantedGroups[i])`.  There is no `break` after the command. -/
def groupsLoop {W : Type} (h : Host W) (u : PasswdEntry) (wantedGroups : List GoString) :
    List (GoString × GoString) → Prog W Unit
  | [] => pure ()
  | (current, wanted) :: rest =>
    if current ≠ wanted then do
      let r ← sys h (usermodGroups (join wantedGroups ",".toList) u.Username)
      if r.err ≠ none then fail .modifyingGroups
      else groupsLoop h u wantedGroups rest
    else groupsLoop h u wantedGroups rest

/-- Function `ensureGroups`. -/
def ensureGroups {W : Type} (h : Host W) (u : PasswdEntry) (wantedGroups : List GoString) :
    Prog W Unit := do
  let r ← sys h (groupsOf u.Username)
  if r.err ≠ none then fail .findingGroups
  else
    let outStr := trimSpace r.data
    let groupsStr ← orAbort (index (split outStr " : ".toList) 1)
    let currentGroups := sortStrings (split groupsStr " ".toList)
    let wantedGroups := sortStrings wantedGroups
    if currentGroups.length = wantedGroups.length then
      groupsLoop h u wantedGroups (currentGroups.zip wantedGroups)
    else pure ()

/-- Function `hasEnabledPassword`. -/
def hasEnabledPassword {W : Type} (h : Host W) (username : GoString) : Prog W Bool := do
  let r ← sys h (getentShadow username)
  if r.err ≠ none then fail (.shadowInfo username)
  else
    let lines := split r.data "\n".toList
    let line ← orAbort (index lines 0)
    let fields := split line ":".toList
    let field ← orAbort (index fields 1)
    pure (decide (field ≠ "*".toList) && !hasPrefix field "!".toList)

/-- Function `ensureNoPassword`. -/
def ensureNoPassword {W : Type} (h : Host W) (username : GoString) : Prog W Unit := do
  let enabledPassword ← hasEnabledPassword h username
  if enabledPassword then do
    let r ← sys h (usermodLock username)
    if r.err ≠ none then fail (.lockingUser username) else pure ()
  else pure ()

/-- Function `checkNoPassword`. -/
def checkNoPassword {W : Type} (h : Host W) (username : GoString) : Prog W Unit := do
  let enabledPassword ← hasEnabledPassword h username
  if enabledPassword then fail (.enabledPassword username) else pure ()

/-- Function `checkNoAuthorizedKeys`. -/
def checkNoAuthorizedKeys {W : Type} (h : Host W) (user : PasswdEntry) : Prog W Unit := do
  let authorizedKeysFilename := h.pathJoin [user.Home, ".ssh".toList, "authorized_keys".toList]
  let r ← sys h (.stat authorizedKeysFilename)
  match r.err with
  | none => fail (.hasAuthorizedKeys user.Username authorizedKeysFilename)
  | some .notExist => pure ()
  | some e => fail (.sys e)

/-! ## `files.go` -/

/-- Function `ensureFileContent`. -/
def ensureFileContent {W : Type} (h : Host W) (filename content : GoString) : Prog W Unit := do
  let rd ← sys h (.readFile filename)
  match rd.err with
  | some .other => fail (.sys .other)
  | readErr =>
    let existingContent := if readErr = some .notExist then [] else rd.data
    if existingContent = content then pure ()
    else
      let tf ← sys h (.tempFile (h.pathDir filename) (h.pathBase filename))
      match tf.err with
      | some e => fail (.sys e)
      | none =>
        let w1 ← sys h (.write tf.data content)
        let w2 ← (if w1.err = none then sys h (.write tf.data "\n".toList) else pure w1)
        match w2.err with
        | some e => do
          let _ ← sys h (.remove tf.data)
          fail (.sys e)
        | none =>
          let cl ← sys h (.close tf.data)
          match cl.err with
          | some e => do
            let _ ← sys h (.remove tf.data)
            fail (.sys e)
          | none =>
            let rn ← sys h (.rename tf.data filename)
            match rn.err with
            | some e => fail (.sys e)
            | none => pure ()

/-- Function `setAuthorizedKeys`. -/
def setAuthorizedKeys {W : Type} (h : Host W) (u : localUser) (authorizedKeys : GoString) :
    Prog W Unit := do
  let sshDir := h.pathJoin [u.Home, ".ssh".toList]
  let authorizedKeysFilename := h.pathJoin [sshDir, "authorized_keys".toList]
  let st ← sys h (.stat (h.pathDir authorizedKeysFilename))
  if st.err = some .notExist then do
    let mk ← sys h (.mkdir sshDir 0o700)
    match mk.err with
    | some e => fail (.sys e)
    | none =>
      let ch ← sys h (.chown sshDir u.UID u.GID)
      match ch.err with
      | some e => fail (.sys e)
      | none => ensureFileContent h authorizedKeysFilename authorizedKeys
  else ensureFileContent h authorizedKeysFilename authorizedKeys

/-! ## `main.go`: synchronisation -/

/-- The part of `syncKeys` that fills the buffer from `u.SSHKeysUrl`. -/
def fetchKeys {W : Type} (h : Host W) (u : localUser) : Prog W GoString := do
  if u.SSHKeysUrl ≠ [] then
    let resp ← sys h (.httpGet u.SSHKeysUrl)
    if resp.err ≠ none then fail (.gettingKeys u.Username u.SSHKeysUrl)
    else if resp.status < 200 ∨ resp.status > 299 then fail (.keysStatus u.Username u.SSHKeysUrl)
    else
      let body ← sys h (.readBody u.SSHKeysUrl)
      if body.err ≠ none then fail (.readingKeys u.Username u.SSHKeysUrl)
      else pure ("# Public keys from ".toList ++ u.SSHKeysUrl ++ "\n".toList ++ body.data
        ++ "\n".toList)
  else pure []

/-- The part of `syncKeys` that appends `u.SSHKeys`. -/
def staticKeys (u : localUser) : GoString :=
  match u.SSHKeys with
  | none => []
  | some keys => (keys.map (fun key => trimSpace key ++ "\n".toList)).flatten

/-- Function `syncKeys`. -/
def syncKeys {W : Type} (h : Host W) (u : localUser) : Prog W Unit := do
  let fetched ← fetchKeys h u
  let authorizedKeys := fetched ++ staticKeys u
  if u.Home = [] then abort (.emptyHome u.Username)
  else setAuthorizedKeys h u authorizedKeys

/-- Body of the first loop of `syncUsers`, for one user of the directory. -/
def syncUser {W : Type} (h : Host W) (existingUsers : List (GoString × PasswdEntry))
    (u : localUser) : Prog W Unit := do
  let existingUser ← (match mapGet existingUsers u.Username with
    | some e => pure e
    | none => addUser h u.Username u.gecosString u.Home)
  let u := { u with Home := existingUser.Home, GID := existingUser.GID, UID := existingUser.UID }
  wrapErr (.settingUpGroups u.Username) (ensureGroups h existingUser u.getGroups)
  (if !u.CanHavePassword then ensureNoPassword h u.Username else pure ())
  syncKeys h u

/-- First loop of `syncUsers`. -/
def syncLoop {W : Type} (h : Host W) (existingUsers : List (GoString × PasswdEntry)) :
    List (GoString × localUser) → Prog W Unit
  | [] => pure ()
  | (_, u) :: rest => do
    syncUser h existingUsers u
    syncLoop h existingUsers rest

/-- Body of the second loop of `syncUsers`, for one existing account. -/
def removalStep {W : Type} (h : Host W) (usersFromDirectory : List (GoString × localUser))
    (existingUsername : GoString) (existingUser : PasswdEntry) : Prog W Unit :=
  match mapGet usersFromDirectory existingUsername with
  | some _ => pure ()
  | none =>
    if existingUser.UID < 1000 then do
      checkNoPassword h existingUsername
      checkNoAuthorizedKeys h existingUser
    else removeUser h existingUsername

/-- Second loop of `syncUsers`. -/
def removalLoop {W : Type} (h : Host W) (usersFromDirectory : List (GoString × localUser)) :
    List (GoString × PasswdEntry) → Prog W Unit
  | [] => pure ()
  | (existingUsername, existingUser) :: rest => do
    removalStep h usersFromDirectory existingUsername existingUser
    removalLoop h usersFromDirectory rest

/-- Function `syncUsers`. -/
def syncUsers {W : Type} (h : Host W) (usersFromDirectory : List (GoString × localUser)) :
    Prog W Unit := do
  let existingUsers ← getExistingUsers h
  syncLoop h existingUsers usersFromDirectory
  removalLoop h usersFromDirectory (h.rangeOrder existingUsers)

/-- Start of a run in world `w`. -/
def start {W : Type} (w : W) : Run W := ⟨w, []⟩

/-! ## Concrete hosts, for evaluating the functions -/

/-- Go's `filepath.Clean` (Unix): separators collapsed, `.` elements dropped,
each inner `..` dropped with the element before it, `..` dropped at the root,
and `.` for an empty result. -/
def filepathClean (path : GoString) : GoString :=
  let rooted := hasPrefix path "/".toList
  let elems := (split path "/".toList).filter (fun c => c ≠ [] ∧ c ≠ ".".toList)
  let kept := elems.foldl (fun (acc : List GoString) c =>
    if c = "..".toList then
      match acc with
      | [] => if rooted then [] else [c]
      | top :: below => if top = "..".toList then c :: top :: below else below
    else c :: acc) []
  let body := join kept.reverse "/".toList
  if rooted then "/".toList ++ body
  else if body = [] then ".".toList
  else body

/-- Go's `filepath.Join` (Unix): the non-empty elements joined by `/` and cleaned;
the empty string when there is none. -/
def filepathJoin (parts : List GoString) : GoString :=
  match parts.filter (fun p => p ≠ []) with
  | [] => []
  | kept => filepathClean (join kept "/".toList)

/-- Go's `filepath.Dir` (Unix): the path up to its last `/`, cleaned. -/
def filepathDir (path : GoString) : GoString :=
  filepathClean (path.reverse.dropWhile (fun c => c ≠ '/')).reverse

/-- Go's `filepath.Base` (Unix): the last element of the path, trailing slashes
removed first; `.` for the empty path and `/` for a path of slashes only. -/
def filepathBase (path : GoString) : GoString :=
  if path = [] then ".".toList
  else
    match path.reverse.dropWhile (fun c => c = '/') with
    | [] => "/".toList
    | stripped => (stripped.takeWhile (fun c => c ≠ '/')).reverse

/-- A reply without error. -/
def okReply (data : GoString) : Reply := ⟨none, data, 0⟩

/-- A reply with an error. -/
def errReply (e : SysErr) : Reply := ⟨some e, [], 0⟩

/-- A host whose replies depend on the call alone. -/
def scripted (answer : Call → Reply) : Host Unit :=
  { os := fun _ c => (answer c, ()), pathJoin := filepathJoin, pathDir := filepathDir,
    pathBase := filepathBase, rangeOrder := id }

/-- Removal of a binding `delete(m, k)`. -/
def mapErase {β : Type} (m : List (GoString × β)) (k : GoString) : List (GoString × β) :=
  m.filter (fun kv => kv.1 ≠ k)

/-- A file system in memory: the regular files with their content.  `TempFile`
creates `dir/pattern001`; `Write` appends; `Rename` moves the content. -/
def memStep (files : List (GoString × GoString)) : Call → Reply × List (GoString × GoString)
  | .readFile path =>
    match mapGet files path with
    | some content => (okReply content, files)
    | none => (errReply .notExist, files)
  | .stat path =>
    match mapGet files path with
    | some _ => (okReply [], files)
    | none => (errReply .notExist, files)
  | .tempFile dir pattern =>
    (okReply (dir ++ "/".toList ++ pattern ++ "001".toList),
      mapSet files (dir ++ "/".toList ++ pattern ++ "001".toList) [])
  | .write name data =>
    match mapGet files name with
    | some content => (okReply [], mapSet files name (content ++ data))
    | none => (errReply .other, files)
  | .remove name => (okReply [], mapErase files name)
  | .rename oldpath newpath =>
    match mapGet files oldpath with
    | some content => (okReply [], mapSet (mapErase files oldpath) newpath content)
    | none => (errReply .notExist, files)
  | _ => (okReply [], files)

/-- The host over the file system in memory. -/
def memHost : Host (List (GoString × GoString)) :=
  { os := memStep, pathJoin := filepathJoin, pathDir := filepathDir, pathBase := filepathBase,
    rangeOrder := id }

/-- Path of the credential file used in the evaluations. -/
def bobKeysFile : GoString := "/home/bob/.ssh/authorized_keys".toList

/-- Content written in the evaluations. -/
def bobKeys : GoString := "ssh-ed25519 AAAA bob".toList

/-- A passwd entry with only the user name filled in. -/
def entryNamed (username : GoString) : PasswdEntry :=
  { Username := username, UID := 0, GID := 0, Gecos := [], Home := [], Shell := [] }

/-- Replies of a host on which `groups bob` prints `bob : a b` and every other call succeeds. -/
def groupsAB : Call → Reply
  | .exec name _ => if name = "groups".toList then okReply "bob : a b\n".toList else okReply []
  | _ => okReply []

/-! ## Properties of runs -/

/-- The call is a removal (`deluser`) or a change (`usermod`: group change or
password lock) of account `a`: the account is the last argument of the command. -/
def mutates (a : GoString) : Call → Bool
  | .exec name args =>
    (decide (name = "deluser".toList) || decide (name = "usermod".toList)) &&
      decide (args.getLast? = some a)
  | _ => false

/-- The reply to `getent shadow` shows an enabled password: it is a record whose
first line has a second colon-separated field that is neither `*` nor begins
with `!`. -/
def passwordEnabled (r : Reply) : Bool :=
  match r.err with
  | some _ => false
  | none =>
    match index (split r.data "\n".toList) 0 with
    | .error _ => false
    | .ok line =>
      match index (split line ":".toList) 1 with
      | .error _ => false
      | .ok field => decide (field ≠ "*".toList) && !hasPrefix field "!".toList

/-- Every call that `p` makes, from any state, leaves account `a` alone: it is
neither a removal or change of `a` nor a shadow query for `a`. -/
def Quiet {W α : Type} (a : GoString) (p : Prog W α) : Prop :=
  ∀ s, ∃ new, (p s).2.log = s.log ++ new ∧
    ∀ cr ∈ new, mutates a cr.1 = false ∧ cr.1 ≠ getentShadow a

/-- From state `s`, `p` makes no removal or change of account `a`, and if one of
its shadow queries for `a` shows an enabled password then `p` returns an error. -/
def Guarded {W α : Type} (a : GoString) (p : Prog W α) (s : Run W) : Prop :=
  ∃ new, (p s).2.log = s.log ++ new ∧
    (∀ cr ∈ new, mutates a cr.1 = false) ∧
    ((∃ cr ∈ new, cr.1 = getentShadow a ∧ passwordEnabled cr.2 = true) →
      ∃ e, (p s).1 = .err e)

/-- The map is keyed by user name, one binding per key. -/
def KeyedByName (m : List (GoString × PasswdEntry)) : Prop :=
  (m.map Prod.fst).Nodup ∧ ∀ k e, (k, e) ∈ m → e.Username = k

/-- Replies of a host on which `getent shadow bob` prints a record with a
password hash, and every other call succeeds with no output. -/
def shadowHash : Call → Reply
  | .exec name _ =>
    if name = "getent".toList then okReply "bob:$6$abc:19000:0:99999:7:::\n".toList
    else okReply []
  | _ => okReply []

/-- Replies of a host with the accounts `root` (uid 0), `daemon` (uid 1, with a
password hash in its shadow record) and `bob` (uid 1001, password locked, in
group `dev`), on which `alice` is about to be created (uid 1002); no file
exists, and every other call succeeds with no output. -/
def smallHost : Call → Reply
  | .exec name args =>
    if name = "getent".toList then
      match args with
      | [_] => okReply ("root:x:0:0:root:/root:/bin/bash\n".toList
          ++ "daemon:x:1:1:daemon:/usr/sbin:/usr/sbin/nologin\n".toList
          ++ "bob:x:1001:1001:Bob:/home/bob:/bin/bash\n".toList)
      | [kind, user] =>
        if kind = "shadow".toList then
          if user = "daemon".toList then okReply "daemon:$6$abc:19000:0:99999:7:::\n".toList
          else okReply "x:!:19000:0:99999:7:::\n".toList
        else if user = "alice".toList then
          okReply "alice:x:1002:1002:Alice:/home/alice:/bin/bash\n".toList
        else okReply "bob:x:1001:1001:Bob:/home/bob:/bin/bash\n".toList
      | _ => errReply .other
    else if name = "groups".toList then okReply "bob : dev\n".toList
    else okReply []
  | .stat _ => errReply .notExist
  | .readFile _ => errReply .notExist
  | _ => okReply []

/-- The desired users of the evaluation on `smallHost`: `bob` and `alice`, in group `dev`. -/
def smallDesired : List (GoString × localUser) :=
  [("bob".toList,
    { Username := "bob".toList, FullName := "Bob".toList, Email := "bob@x.io".toList,
      CanHavePassword := false, SSHKeys := none, groups := some ["dev".toList],
      SSHKeysUrl := [], Home := [], UID := 0, GID := 0 }),
   ("alice".toList,
    { Username := "alice".toList, FullName := "Alice".toList, Email := "alice@x.io".toList,
      CanHavePassword := false, SSHKeys := some ["ssh-ed25519 AAAA alice".toList],
      groups := some ["dev".toList], SSHKeysUrl := [], Home := [], UID := 0, GID := 0 })]

/-- The snapshot of existing accounts on `smallHost`. -/
def smallExisting : List (GoString × PasswdEntry) :=
  [("root".toList, ⟨"root".toList, 0, 0, "root".toList, "/root".toList, "/bin/bash".toList⟩),
   ("daemon".toList,
      ⟨"daemon".toList, 1, 1, "daemon".toList, "/usr/sbin".toList, "/usr/sbin/nologin".toList⟩),
   ("bob".toList, ⟨"bob".toList, 1001, 1001, "Bob".toList, "/home/bob".toList, "/bin/bash".toList⟩)]

/-- The part of `syncUsers` before its second loop reaches the entry that follows
`visited` in the visiting order: `getExistingUsers`, the first loop, and the
second loop over the entries `visited`. -/
def syncUsersUntil {W : Type} (h : Host W) (usersFromDirectory : List (GoString × localUser))
    (visited : List (GoString × PasswdEntry)) : Prog W Unit := do
  let existingUsers ← getExistingUsers h
  syncLoop h existingUsers usersFromDirectory
  removalLoop h usersFromDirectory visited

/-- Replies of a host with the accounts `root` (uid 0) and `daemon` (uid 1), on
which `getent passwd <name>` answers with the record of `daemon` whatever the
name, `groups` prints `daemon : daemon`, every password is locked, no file
exists, and every other call succeeds with no output. -/
def wrongRecordHost : Call → Reply
  | .exec name args =>
    if name = "getent".toList then
      match args with
      | [_] => okReply ("root:x:0:0:root:/root:/bin/bash\n".toList
          ++ "daemon:x:1:1:daemon:/usr/sbin:/usr/sbin/nologin\n".toList)
      | [kind, _] =>
        if kind = "shadow".toList then okReply "x:!:19000:0:99999:7:::\n".toList
        else okReply "daemon:x:1:1:daemon:/usr/sbin:/usr/sbin/nologin\n".toList
      | _ => errReply .other
    else if name = "groups".toList then okReply "daemon : daemon\n".toList
    else okReply []
  | .stat _ => errReply .notExist
  | .readFile _ => errReply .notExist
  | _ => okReply []

/-- Desired users with the single user `alice`, in group `dev`. -/
def aliceDesired : List (GoString × localUser) :=
  [("alice".toList,
    { Username := "alice".toList, FullName := "Alice".toList, Email := "alice@x.io".toList,
      CanHavePassword := false, SSHKeys := none, groups := some ["dev".toList],
      SSHKeysUrl := [], Home := [], UID := 0, GID := 0 })]

/-- A desired-user map that holds, under the key `x`, a record whose `Username` is `daemon`. -/
def misfiledDesired : List (GoString × localUser) :=
  [("x".toList,
    { Username := "daemon".toList, FullName := "D".toList, Email := "d@x.io".toList,
      CanHavePassword := false, SSHKeys := none, groups := some ["dev".toList],
      SSHKeysUrl := [], Home := [], UID := 0, GID := 0 })]

/-- The record of `daemon` on the hosts of the evaluations. -/
def daemonEntry : PasswdEntry :=
  ⟨"daemon".toList, 1, 1, "daemon".toList, "/usr/sbin".toList, "/usr/sbin/nologin".toList⟩

/-- The snapshot of existing accounts on `wrongRecordHost`. -/
def twoExisting : List (GoString × PasswdEntry) :=
  [("root".toList, ⟨"root".toList, 0, 0, "root".toList, "/root".toList, "/bin/bash".toList⟩),
   ("daemon".toList, daemonEntry)]

/-! ## Theorems -/

theorem hasPrefix_length {s p : GoString} (h : hasPrefix s p = true) : p.length ≤ s.length := by
  induction s generalizing p with
  | nil => cases p <;> simp_all [hasPrefix]
  | cons c s ih =>
    cases p with
    | nil => simp
    | cons q ps =>
      simp only [hasPrefix] at h
      split at h
      · simpa using ih h
      · cases h

theorem replaceFirst_of_not_contains (old : GoString) (s : GoString)
    (h : contains s old = false) : replaceFirst old [] s = s := by
  induction s with
  | nil => rfl
  | cons c rest ih =>
    simp only [contains, Bool.or_eq_false_iff] at h
    simp [replaceFirst, h.1, ih h.2]

theorem replaceFirst_length_of_contains (old : GoString) (s : GoString)
    (h : contains s old = true) : (replaceFirst old [] s).length + old.length = s.length := by
  induction s with
  | nil =>
    cases old with
    | nil => rfl
    | cons _ _ => simp [contains, hasPrefix] at h
  | cons c rest ih =>
    simp only [contains, Bool.or_eq_true] at h
    by_cases hp : hasPrefix (c :: rest) old = true
    · have hl := hasPrefix_length hp
      simp only [replaceFirst, hp, if_true, List.nil_append, List.length_drop]
      omega
    · have hc : contains rest old = true := by
        rcases h with h | h
        · exact absurd h hp
        · exact h
      simp only [replaceFirst, hp, List.length_cons]
      have := ih hc
      simp at this ⊢
      omega

theorem toNat_ofNat_add (n : Nat) (h : n ≤ 90) : (Char.ofNat (n + 32)).toNat = n + 32 := by
  have hvalid : (n + 32).isValidChar := by
    left; omega
  simp only [Char.ofNat, hvalid, Char.toNat, Char.ofNatAux, dif_pos]
  rfl

theorem asciiLower_idem (c : Char) : asciiLower (asciiLower c) = asciiLower c := by
  unfold asciiLower
  by_cases h : 65 ≤ c.toNat ∧ c.toNat ≤ 90
  · have hv : (Char.ofNat (c.toNat + 32)).toNat = c.toNat + 32 :=
      toNat_ofNat_add (c.toNat) h.2
    simp only [h, and_self, if_true, hv]
    rw [if_neg]
    omega
  · simp [h]

theorem mem_of_mem_replaceFirst (old : GoString) (s : GoString) (c : Char)
    (h : c ∈ replaceFirst old [] s) : c ∈ s := by
  induction s with
  | nil => simp [replaceFirst] at h
  | cons d rest ih =>
    simp only [replaceFirst] at h
    split at h
    · exact List.mem_of_mem_drop (by simpa using h)
    · rcases List.mem_cons.1 h with h | h
      · exact h ▸ List.mem_cons_self _ _
      · exact List.mem_cons_of_mem _ (ih h)

theorem toLower_normalize (lowerRune : Char → Char)
    (hl : ∀ c, lowerRune (lowerRune c) = lowerRune c) (x : GoString) :
    toLower lowerRune (normalize lowerRune x) = normalize lowerRune x := by
  have hfix : ∀ c ∈ normalize lowerRune x, lowerRune c = id c := by
    intro c hc
    have hmem := mem_of_mem_replaceFirst githubPrefix _ c hc
    obtain ⟨d, _, rfl⟩ := List.mem_map.1 hmem
    exact hl d
  unfold toLower
  rw [List.map_congr_left hfix, List.map_id]

/-- C7 (amended): with an idempotent rune case table, normalizing twice gives the
same as normalizing once exactly for the handles whose normalized form no
longer contains `"https://github.com/"`. -/
theorem normalize_idempotent_iff (lowerRune : Char → Char)
    (hl : ∀ c, lowerRune (lowerRune c) = lowerRune c) (x : GoString) :
    normalize lowerRune (normalize lowerRune x) = normalize lowerRune x ↔
      contains (normalize lowerRune x) githubPrefix = false := by
  have hstep : normalize lowerRune (normalize lowerRune x)
      = replaceFirst githubPrefix [] (normalize lowerRune x) := by
    conv_lhs => unfold normalize
    rw [show toLower lowerRune (replaceFirst githubPrefix [] (toLower lowerRune x))
        = toLower lowerRune (normalize lowerRune x) from rfl, toLower_normalize lowerRune hl x]
  rw [hstep]
  constructor
  · intro heq
    by_contra hc
    have hc' : contains (normalize lowerRune x) githubPrefix = true := by simpa using hc
    have hlen := replaceFirst_length_of_contains githubPrefix _ hc'
    rw [heq] at hlen
    have : githubPrefix.length = 19 := by decide
    omega
  · exact replaceFirst_of_not_contains githubPrefix _

/-- Instance of `normalize_idempotent_iff` at the handle `https://github.com/PepaZD`. -/
theorem normalize_idempotent_iff_witness :
    (∀ c, asciiLower (asciiLower c) = asciiLower c) ∧
    (normalize asciiLower (normalize asciiLower "https://github.com/PepaZD".toList)
        = normalize asciiLower "https://github.com/PepaZD".toList ↔
      contains (normalize asciiLower "https://github.com/PepaZD".toList) githubPrefix = false) :=
  ⟨asciiLower_idem, normalize_idempotent_iff asciiLower asciiLower_idem _⟩

/-- C7 (as stated) fails: a handle carrying the URL prefix twice loses one prefix
per normalization. -/
theorem normalize_not_idempotent :
    normalize asciiLower "https://github.com/https://github.com/a".toList
        = "https://github.com/a".toList ∧
    normalize asciiLower (normalize asciiLower "https://github.com/https://github.com/a".toList)
        = "a".toList ∧
    normalize asciiLower (normalize asciiLower "https://github.com/https://github.com/a".toList)
        ≠ normalize asciiLower "https://github.com/https://github.com/a".toList := by
  decide

/-! ### Maps -/

theorem mapGet_mapSet {β : Type} (m : List (GoString × β)) (k k' : GoString) (v : β) :
    mapGet (mapSet m k v) k' = if k = k' then some v else mapGet m k' := by
  induction m with
  | nil => simp [mapSet, mapGet]
  | cons kv rest ih =>
    obtain ⟨k0, v0⟩ := kv
    by_cases h0 : k0 = k
    · subst h0
      by_cases h1 : k0 = k' <;> simp [mapSet, mapGet, h1]
    · by_cases h1 : k0 = k'
      · subst h1
        have : ¬ k = k0 := fun h => h0 h.symm
        simp [mapSet, mapGet, h0, this]
      · simp [mapSet, mapGet, h0, h1, ih]

theorem mapGet_eq_none_iff {β : Type} (m : List (GoString × β)) (k : GoString) :
    mapGet m k = none ↔ k ∉ m.map Prod.fst := by
  induction m with
  | nil => simp [mapGet]
  | cons kv rest ih =>
    obtain ⟨k0, v0⟩ := kv
    simp only [mapGet, List.map_cons, List.mem_cons, not_or]
    by_cases h0 : k0 = k
    · simp only [h0, if_true]
      constructor
      · intro h
        cases h
      · intro h
        exact absurd trivial h.1
    · have : ¬ k = k0 := fun h => h0 h.symm
      simp only [h0, if_false, ih]
      constructor
      · intro h
        exact ⟨this, h⟩
      · intro h
        exact h.2

theorem mapGet_of_mem {β : Type} (m : List (GoString × β)) (hnd : (m.map Prod.fst).Nodup)
    (k : GoString) (v : β) (h : (k, v) ∈ m) : mapGet m k = some v := by
  induction m with
  | nil => cases h
  | cons kv rest ih =>
    obtain ⟨k0, v0⟩ := kv
    simp only [List.map_cons, List.nodup_cons] at hnd
    rcases List.mem_cons.1 h with h | h
    · cases h
      simp [mapGet]
    · have hk : k ∈ rest.map Prod.fst := List.mem_map.2 ⟨(k, v), h, rfl⟩
      have : ¬ k0 = k := fun e => hnd.1 (e ▸ hk)
      simp [mapGet, this, ih hnd.2 h]

theorem mem_of_mapGet {β : Type} (m : List (GoString × β)) (k : GoString) (v : β)
    (h : mapGet m k = some v) : (k, v) ∈ m := by
  induction m with
  | nil => simp [mapGet] at h
  | cons kv rest ih =>
    obtain ⟨k0, v0⟩ := kv
    by_cases h0 : k0 = k
    · simp [mapGet, h0] at h
      simp [h0, h]
    · simp [mapGet, h0] at h
      exact List.mem_cons_of_mem _ (ih h)

theorem mapSet_keys_of_absent {β : Type} (m : List (GoString × β)) (k : GoString) (v : β)
    (h : mapGet m k = none) : (mapSet m k v).map Prod.fst = m.map Prod.fst ++ [k] := by
  induction m with
  | nil => simp [mapSet]
  | cons kv rest ih =>
    obtain ⟨k0, v0⟩ := kv
    by_cases h0 : k0 = k
    · simp [mapGet, h0] at h
    · simp [mapGet, h0] at h
      simp [mapSet, h0, ih h]

theorem mapSet_nodup_of_absent {β : Type} (m : List (GoString × β)) (k : GoString) (v : β)
    (h : mapGet m k = none) (hnd : (m.map Prod.fst).Nodup) :
    ((mapSet m k v).map Prod.fst).Nodup := by
  rw [mapSet_keys_of_absent m k v h]
  have hk := (mapGet_eq_none_iff m k).1 h
  rw [List.nodup_append]
  refine ⟨hnd, List.nodup_singleton k, ?_⟩
  intro a ha hb
  simp only [List.mem_singleton] at hb
  exact hk (hb ▸ ha)

/-! ### `mergeUsers` -/

theorem addGroups_ok (u : localUser) (gs : List GoString)
    (h : ∀ g ∈ gs, matchesGroupName g = true) : ∃ u', addGroups u gs = .ok u' := by
  induction gs generalizing u with
  | nil => exact ⟨u, rfl⟩
  | cons g rest ih =>
    have hg : matchesGroupName g = true := h g (List.mem_cons_self _ _)
    simp only [addGroups, localUser.addGroup, hg, Bool.not_true, Bool.false_eq_true, if_false]
    exact ih _ (fun x hx => h x (List.mem_cons_of_mem _ hx))

theorem mergeMember_blank (lowerRune : Char → Char) (gm : List (GoString × List GoString))
    (g : GoString) (m : List (GoString × localUser)) (u : directoryUser)
    (h : trimSpace u.GithubUsername = []) : mergeMember lowerRune gm g m u = .ok m := by
  simp [mergeMember, h]

theorem mergeMember_unmapped (lowerRune : Char → Char) (gm : List (GoString × List GoString))
    (g : GoString) (m : List (GoString × localUser)) (u : directoryUser)
    (h : trimSpace u.GithubUsername ≠ []) (hg : mapGet gm g = none) :
    mergeMember lowerRune gm g m u = .error (.unknownMapping g) := by
  simp [mergeMember, h, hg]

theorem mergeMember_mapped (lowerRune : Char → Char) (gm : List (GoString × List GoString))
    (g : GoString) (m : List (GoString × localUser)) (u : directoryUser) (gs : List GoString)
    (h : trimSpace u.GithubUsername ≠ []) (hg : mapGet gm g = some gs)
    (hv : ∀ x ∈ gs, matchesGroupName x = true) :
    mergeMember lowerRune gm g m u = .ok
      (match mapGet m (normalize lowerRune u.GithubUsername) with
        | some _ => m
        | none => mapSet m (normalize lowerRune u.GithubUsername)
            (newLocalUser (normalize lowerRune u.GithubUsername) u)) := by
  simp only [mergeMember, h, if_false, hg]
  obtain ⟨u', hu'⟩ := addGroups_ok
    (match mapGet m (normalize lowerRune u.GithubUsername) with
      | some l => l
      | none => newLocalUser (normalize lowerRune u.GithubUsername) u) gs hv
  rw [hu']

theorem mergeGroup_unmapped (lowerRune : Char → Char) (gm : List (GoString × List GoString))
    (g : GoString) (ul : List directoryUser) (u : directoryUser) (hu : u ∈ ul)
    (h : trimSpace u.GithubUsername ≠ []) (hg : mapGet gm g = none)
    (m : List (GoString × localUser)) : ∃ e, mergeGroup lowerRune gm g m ul = .error e := by
  induction ul generalizing m with
  | nil => cases hu
  | cons v rest ih =>
    simp only [mergeGroup]
    rcases List.mem_cons.1 hu with hv | hv
    · subst hv
      rw [mergeMember_unmapped lowerRune gm g m u h hg]
      exact ⟨_, rfl⟩
    · cases hm : mergeMember lowerRune gm g m v with
      | error e => exact ⟨e, rfl⟩
      | ok m' => exact ih hv m'

theorem mergeLoop_unmapped (lowerRune : Char → Char) (gm : List (GoString × List GoString))
    (users : List (GoString × List directoryUser)) (g : GoString) (ul : List directoryUser)
    (u : directoryUser) (hg : (g, ul) ∈ users) (hu : u ∈ ul)
    (h : trimSpace u.GithubUsername ≠ []) (hm : mapGet gm g = none)
    (m : List (GoString × localUser)) : ∃ e, mergeLoop lowerRune gm m users = .error e := by
  induction users generalizing m with
  | nil => cases hg
  | cons p rest ih =>
    obtain ⟨g0, ul0⟩ := p
    simp only [mergeLoop]
    rcases List.mem_cons.1 hg with hp | hp
    · cases hp
      obtain ⟨e, he⟩ := mergeGroup_unmapped lowerRune gm g ul u hu h hm m
      rw [he]
      exact ⟨e, rfl⟩
    · cases hr : mergeGroup lowerRune gm g0 m ul0 with
      | error e => exact ⟨e, rfl⟩
      | ok m' => exact ih hp m'

/-- C5: when a directory group that has a member with a non-blank handle has no
entry in the group mapping, `mergeUsers` aborts and returns no user map,
whatever the order in which the groups are visited. -/
theorem mergeUsers_unmapped_group_aborts (lowerRune : Char → Char)
    (users : List (GoString × List directoryUser)) (groupMapping : List (GoString × List GoString))
    (g : GoString) (ul : List directoryUser) (u : directoryUser)
    (hg : (g, ul) ∈ users) (hu : u ∈ ul) (hhandle : trimSpace u.GithubUsername ≠ [])
    (hunmapped : mapGet groupMapping g = none) :
    (∃ e, mergeUsers lowerRune users groupMapping = .error e) ∧
    ∀ m, mergeUsers lowerRune users groupMapping ≠ .ok m := by
  obtain ⟨e, he⟩ := mergeLoop_unmapped lowerRune groupMapping users g ul u hg hu hhandle hunmapped []
  refine ⟨⟨e, he⟩, ?_⟩
  intro m hm
  unfold mergeUsers at hm
  rw [he] at hm
  cases hm

/-- Instance of `mergeUsers_unmapped_group_aborts`: the test members with the
mapping of `developers@twisto.cz` left out. -/
theorem mergeUsers_unmapped_group_aborts_witness :
    (∃ e, mergeUsers asciiLower testFetchedUsers
        [("devops@twisto.cz".toList, ["sudo".toList, "dev".toList])] = .error e) ∧
    ∀ m, mergeUsers asciiLower testFetchedUsers
        [("devops@twisto.cz".toList, ["sudo".toList, "dev".toList])] ≠ .ok m :=
  mergeUsers_unmapped_group_aborts asciiLower testFetchedUsers
    [("devops@twisto.cz".toList, ["sudo".toList, "dev".toList])]
    "developers@twisto.cz".toList
    [⟨"Pepa z Depa".toList, "pepazd".toList, "pepa@depo.cz".toList⟩,
     ⟨"Remus".toList, "remus".toList, "remus@roma.it".toList⟩]
    ⟨"Remus".toList, "remus".toList, "remus@roma.it".toList⟩
    (by decide) (by decide) (by decide) (by decide)

theorem Extends.refl (lowerRune : Char → Char) (m : List (GoString × localUser)) :
    Extends lowerRune (fun _ => False) m m :=
  ⟨id, fun _ _ h => Or.inl h, fun _ h => h, fun _ h => h.elim⟩

theorem Extends.trans {lowerRune : Char → Char} {S1 S2 S : directoryUser → Prop}
    {m m1 m2 : List (GoString × localUser)} (h1 : Extends lowerRune S1 m m1)
    (h2 : Extends lowerRune S2 m1 m2) (hS : ∀ u, S u ↔ S1 u ∨ S2 u) :
    Extends lowerRune S m m2 := by
  obtain ⟨a1, b1, c1, d1⟩ := h1
  obtain ⟨a2, b2, c2, d2⟩ := h2
  refine ⟨fun h => a2 (a1 h), ?_, fun k h => c2 k (c1 k h), ?_⟩
  · intro k v hkv
    rcases b2 k v hkv with h | ⟨hu, hgr, u, hSu, hb, hn⟩
    · rcases b1 k v h with h | ⟨hu, hgr, u, hSu, hb, hn⟩
      · exact Or.inl h
      · exact Or.inr ⟨hu, hgr, u, (hS u).2 (Or.inl hSu), hb, hn⟩
    · exact Or.inr ⟨hu, hgr, u, (hS u).2 (Or.inr hSu), hb, hn⟩
  · intro u hSu hb
    rcases (hS u).1 hSu with h | h
    · exact c2 _ (d1 u h hb)
    · exact d2 u h hb

theorem mergeMember_extends (lowerRune : Char → Char) (gm : List (GoString × List GoString))
    (g : GoString) (gs : List GoString) (hg : mapGet gm g = some gs)
    (hv : ∀ x ∈ gs, matchesGroupName x = true) (m : List (GoString × localUser))
    (u : directoryUser) :
    ∃ m', mergeMember lowerRune gm g m u = .ok m' ∧ Extends lowerRune (fun x => x = u) m m' := by
  by_cases hb : trimSpace u.GithubUsername = []
  · refine ⟨m, mergeMember_blank lowerRune gm g m u hb, id, fun _ _ h => Or.inl h, fun _ h => h, ?_⟩
    intro x hx hx'
    subst hx
    exact absurd hb hx'
  · refine ⟨_, mergeMember_mapped lowerRune gm g m u gs hb hg hv, ?_⟩
    cases hget : mapGet m (normalize lowerRune u.GithubUsername) with
    | some l =>
      refine ⟨id, fun _ _ h => Or.inl h, fun _ h => h, ?_⟩
      intro x hx _
      subst hx
      simp [hget]
    | none =>
      refine ⟨mapSet_nodup_of_absent m _ _ hget, ?_, ?_, ?_⟩
      · intro k v hkv
        simp only [mapGet_mapSet] at hkv
        split at hkv
        · next hk =>
          cases hkv
          exact Or.inr ⟨hk, rfl, u, rfl, hb, hk⟩
        · exact Or.inl hkv
      · intro k hk
        simp only [mapGet_mapSet]
        split
        · rfl
        · exact hk
      · intro x hx _
        subst hx
        simp [mapGet_mapSet]

theorem mergeGroup_extends (lowerRune : Char → Char) (gm : List (GoString × List GoString))
    (g : GoString) (gs : List GoString) (hg : mapGet gm g = some gs)
    (hv : ∀ x ∈ gs, matchesGroupName x = true) (ul : List directoryUser)
    (m : List (GoString × localUser)) :
    ∃ m', mergeGroup lowerRune gm g m ul = .ok m' ∧ Extends lowerRune (fun x => x ∈ ul) m m' := by
  induction ul generalizing m with
  | nil =>
    refine ⟨m, rfl, ?_⟩
    have := Extends.refl lowerRune m
    simpa using this
  | cons u rest ih =>
    obtain ⟨m1, h1, e1⟩ := mergeMember_extends lowerRune gm g gs hg hv m u
    obtain ⟨m2, h2, e2⟩ := ih m1
    refine ⟨m2, ?_, Extends.trans e1 e2 (fun x => by simp)⟩
    simp only [mergeGroup, h1, h2]

theorem mergeLoop_extends (lowerRune : Char → Char) (gm : List (GoString × List GoString))
    (users : List (GoString × List directoryUser))
    (hmapped : ∀ g ul, (g, ul) ∈ users →
      ∃ gs, mapGet gm g = some gs ∧ ∀ x ∈ gs, matchesGroupName x = true)
    (m : List (GoString × localUser)) :
    ∃ m', mergeLoop lowerRune gm m users = .ok m' ∧
      Extends lowerRune (fun x => ∃ g ul, (g, ul) ∈ users ∧ x ∈ ul) m m' := by
  induction users generalizing m with
  | nil =>
    refine ⟨m, rfl, ?_⟩
    have := Extends.refl lowerRune m
    simpa using this
  | cons p rest ih =>
    obtain ⟨g0, ul0⟩ := p
    obtain ⟨gs, hg, hv⟩ := hmapped g0 ul0 (List.mem_cons_self _ _)
    obtain ⟨m1, h1, e1⟩ := mergeGroup_extends lowerRune gm g0 gs hg hv ul0 m
    obtain ⟨m2, h2, e2⟩ := ih (fun g ul h => hmapped g ul (List.mem_cons_of_mem _ h)) m1
    refine ⟨m2, ?_, Extends.trans e1 e2 ?_⟩
    · simp only [mergeLoop, h1, h2]
    · intro x
      constructor
      · rintro ⟨g, ul, hmem, hx⟩
        rcases List.mem_cons.1 hmem with h | h
        · cases h
          exact Or.inl hx
        · exact Or.inr ⟨g, ul, h, hx⟩
      · rintro (h | ⟨g, ul, hmem, hx⟩)
        · exact ⟨g0, ul0, List.mem_cons_self _ _, h⟩
        · exact ⟨g, ul, List.mem_cons_of_mem _ hmem, hx⟩

/-- C6 (amended): when every directory group is mapped to valid local group
names, `mergeUsers` returns a map; its keys are unique and are exactly the
normalized handles of the members whose raw handle is not blank, each record is
stored under its own `Username`, and members with a blank raw handle contribute
nothing. -/
theorem mergeUsers_keys (lowerRune : Char → Char)
    (users : List (GoString × List directoryUser)) (groupMapping : List (GoString × List GoString))
    (hmapped : ∀ g ul, (g, ul) ∈ users →
      ∃ gs, mapGet groupMapping g = some gs ∧ ∀ x ∈ gs, matchesGroupName x = true) :
    ∃ m, mergeUsers lowerRune users groupMapping = .ok m ∧
      (m.map Prod.fst).Nodup ∧
      (∀ k v, (k, v) ∈ m → v.Username = k ∧
        ∃ g ul u, (g, ul) ∈ users ∧ u ∈ ul ∧ trimSpace u.GithubUsername ≠ [] ∧
          normalize lowerRune u.GithubUsername = k) ∧
      (∀ g ul u, (g, ul) ∈ users → u ∈ ul → trimSpace u.GithubUsername ≠ [] →
        ∃ v, (normalize lowerRune u.GithubUsername, v) ∈ m) := by
  obtain ⟨m, hm, hnd, hfrom, _, hall⟩ := mergeLoop_extends lowerRune groupMapping users hmapped []
  have hnd' : (m.map Prod.fst).Nodup := hnd (by simp)
  refine ⟨m, hm, hnd', ?_, ?_⟩
  · intro k v hkv
    rcases hfrom k v (mapGet_of_mem m hnd' k v hkv) with h | ⟨h1, _, u, ⟨g, ul, hg, hu⟩, hb, hn⟩
    · simp [mapGet] at h
    · exact ⟨h1, g, ul, u, hg, hu, hb, hn⟩
  · intro g ul u hg hu hb
    have := hall u ⟨g, ul, hg, hu⟩ hb
    cases hget : mapGet m (normalize lowerRune u.GithubUsername) with
    | none => simp [hget] at this
    | some v => exact ⟨v, mem_of_mapGet m _ v hget⟩

/-- Instance of `mergeUsers_keys` at the data of `TestUsersMerged`. -/
theorem mergeUsers_keys_witness :
    ∃ m, mergeUsers asciiLower testFetchedUsers testGroupMapping = .ok m ∧
      (m.map Prod.fst).Nodup ∧
      (∀ k v, (k, v) ∈ m → v.Username = k ∧
        ∃ g ul u, (g, ul) ∈ testFetchedUsers ∧ u ∈ ul ∧ trimSpace u.GithubUsername ≠ [] ∧
          normalize asciiLower u.GithubUsername = k) ∧
      (∀ g ul u, (g, ul) ∈ testFetchedUsers → u ∈ ul → trimSpace u.GithubUsername ≠ [] →
        ∃ v, (normalize asciiLower u.GithubUsername, v) ∈ m) :=
  mergeUsers_keys asciiLower testFetchedUsers testGroupMapping (by
    intro g ul h
    simp only [testFetchedUsers, List.mem_cons, Prod.mk.injEq, List.mem_singleton,
      List.not_mem_nil, or_false] at h
    rcases h with ⟨rfl, _⟩ | ⟨rfl, _⟩
    · exact ⟨["sudo".toList, "dev".toList], by decide, by decide⟩
    · exact ⟨["dev".toList], by decide, by decide⟩)

/-- Behind C1, in general: when every directory group is mapped to valid local
group names, every record of the map returned by `mergeUsers` has a nil group
set. -/
theorem mergeUsers_groups_nil (lowerRune : Char → Char)
    (users : List (GoString × List directoryUser)) (groupMapping : List (GoString × List GoString))
    (hmapped : ∀ g ul, (g, ul) ∈ users →
      ∃ gs, mapGet groupMapping g = some gs ∧ ∀ x ∈ gs, matchesGroupName x = true) :
    ∃ m, mergeUsers lowerRune users groupMapping = .ok m ∧
      ∀ k v, (k, v) ∈ m → v.groups = none := by
  obtain ⟨m, hm, hnd, hfrom, _, _⟩ := mergeLoop_extends lowerRune groupMapping users hmapped []
  have hnd' : (m.map Prod.fst).Nodup := hnd (by simp)
  refine ⟨m, hm, ?_⟩
  intro k v hkv
  rcases hfrom k v (mapGet_of_mem m hnd' k v hkv) with h | ⟨_, h2, _⟩
  · simp [mapGet] at h
  · exact h2

/-- C6 (as stated) fails: the handle `https://github.com/` is not blank, so the
member is kept, under the empty key and with an empty `Username`. -/
theorem mergeUsers_keeps_empty_normalized_handle :
    mergeUsers asciiLower
      [("g".toList, [⟨"A B".toList, "https://github.com/".toList, "ab@x.io".toList⟩])]
      [("g".toList, ["dev".toList])]
    = .ok [([], newLocalUser [] ⟨"A B".toList, "https://github.com/".toList, "ab@x.io".toList⟩)] ∧
    normalize asciiLower "https://github.com/".toList = [] ∧
    (newLocalUser [] ⟨"A B".toList, "https://github.com/".toList, "ab@x.io".toList⟩).Username = [] := by
  decide

/-- C1 (code at the input of `TestUsersMerged`, both visiting orders of the two
directory groups): the three users are returned once each, and each with a nil
group set, where the test expects sudo and dev, sudo and dev, and dev. -/
theorem mergeUsers_test_groups_lost :
    (mergeUsers asciiLower testFetchedUsers testGroupMapping).map
        (fun m => m.map (fun kv => (kv.1, kv.2.groups)))
      = .ok [("pepazd".toList, none), ("romulus".toList, none), ("remus".toList, none)] ∧
    (mergeUsers asciiLower testFetchedUsers.reverse testGroupMapping).map
        (fun m => m.map (fun kv => (kv.1, kv.2.groups)))
      = .ok [("pepazd".toList, none), ("remus".toList, none), ("romulus".toList, none)] := by
  decide

/-! ### Evaluations -/

/-- C8 (code at a failing input): with an empty email the full name is returned
as it is, commas included; with an email the commas are replaced. -/
theorem gecosString_keeps_comma_without_email :
    (newLocalUser "ab".toList ⟨"A, B".toList, "ab".toList, []⟩).gecosString = "A, B".toList ∧
    (newLocalUser "ab".toList ⟨"A, B".toList, "ab".toList, "a@b.io".toList⟩).gecosString
      = "A_ B <a@b.io>,,,".toList := by
  decide

/-- C2 (code at a failing input): current groups `a b`, wanted groups `c d`.  The
sorted lists have the same length and differ at both indices, and `usermod
--groups c,d bob` is issued twice. -/
theorem ensureGroups_repeats_command :
    (ensureGroups (scripted groupsAB) (entryNamed "bob".toList) ["d".toList, "c".toList]
        (start ())).1 = .ok () ∧
    ((ensureGroups (scripted groupsAB) (entryNamed "bob".toList) ["d".toList, "c".toList]
        (start ())).2.log.map Prod.fst)
      = [.exec "groups".toList ["bob".toList],
         usermodGroups "c,d".toList "bob".toList,
         usermodGroups "c,d".toList "bob".toList] := by
  decide

/-- C3 (code at a failing input): the file is absent and `ensureFileContent` is
called twice with the same content.  Both calls succeed, the first leaves the
content followed by a newline, and the second reads that, finds it different
from the content and writes and renames a temporary file again. -/
theorem ensureFileContent_second_call_rewrites :
    (ensureFileContent memHost bobKeysFile bobKeys (start [])).1 = .ok () ∧
    (ensureFileContent memHost bobKeysFile bobKeys (start [])).2.world
      = [(bobKeysFile, bobKeys ++ "\n".toList)] ∧
    (ensureFileContent memHost bobKeysFile bobKeys
      (start (ensureFileContent memHost bobKeysFile bobKeys (start [])).2.world)).1 = .ok () ∧
    ((ensureFileContent memHost bobKeysFile bobKeys
      (start (ensureFileContent memHost bobKeysFile bobKeys (start [])).2.world)).2.log.map Prod.fst)
      = [.readFile bobKeysFile,
         .tempFile "/home/bob/.ssh".toList "authorized_keys".toList,
         .write "/home/bob/.ssh/authorized_keys001".toList bobKeys,
         .write "/home/bob/.ssh/authorized_keys001".toList "\n".toList,
         .close "/home/bob/.ssh/authorized_keys001".toList,
         .rename "/home/bob/.ssh/authorized_keys001".toList bobKeysFile] := by
  decide

/-! ### `parsePasswdEntry` -/

theorem parseInt32_of_decimal (s : GoString) (hdec : isDecimal s = true)
    (hrange : digitsValue 0 s < 2147483648) : parseInt32 s = some (digitsValue 0 s : Int) := by
  cases s with
  | nil => simp [isDecimal] at hdec
  | cons c rest =>
    simp only [isDecimal, Bool.and_eq_true, decide_eq_true_eq] at hdec
    have hall := hdec.2
    have hc : 48 ≤ c.toNat := by
      simp only [allDigits, List.all_cons, Bool.and_eq_true, decide_eq_true_eq] at hall
      exact hall.1.1
    have hplus : c ≠ '+' := by
      intro h
      rw [h] at hc
      exact absurd hc (by decide)
    have hminus : c ≠ '-' := by
      intro h
      rw [h] at hc
      exact absurd hc (by decide)
    have hnot : ¬ 2147483648 ≤ digitsValue 0 (c :: rest) := by omega
    simp [parseInt32, hplus, hminus, hall, hnot]

/-- C9 (amended): a line whose trimmed text splits at `:` into at least six
fields, the third and fourth being decimal numbers below 2^31, is parsed
without abort into Username, UID, GID, Gecos and Home from fields 1, 3, 4, 5
and 6, and Shell from field 7 when there is one and empty otherwise. -/
theorem parsePasswdEntry_fields (line f0 f1 f2 f3 f4 f5 : GoString) (rest : List GoString)
    (hsplit : split (trimSpace line) ":".toList = f0 :: f1 :: f2 :: f3 :: f4 :: f5 :: rest)
    (huid : isDecimal f2 = true) (huidRange : digitsValue 0 f2 < 2147483648)
    (hgid : isDecimal f3 = true) (hgidRange : digitsValue 0 f3 < 2147483648) :
    parsePasswdEntry line = .ok
      { Username := f0, UID := (digitsValue 0 f2 : Int), GID := (digitsValue 0 f3 : Int),
        Gecos := f4, Home := f5, Shell := rest.headD [] } := by
  unfold parsePasswdEntry
  rw [hsplit]
  simp only [index, List.get?, parseInt32_of_decimal f2 huid huidRange,
    parseInt32_of_decimal f3 hgid hgidRange]
  cases rest with
  | nil => simp
  | cons sh more => simp

/-- Instance of `parsePasswdEntry_fields`: a line with six fields. -/
theorem parsePasswdEntry_fields_witness :
    parsePasswdEntry "bob:x:1001:1002:Bob:/home/bob\n".toList = .ok
      { Username := "bob".toList, UID := (digitsValue 0 "1001".toList : Int),
        GID := (digitsValue 0 "1002".toList : Int), Gecos := "Bob".toList,
        Home := "/home/bob".toList, Shell := ([] : List GoString).headD [] } :=
  parsePasswdEntry_fields "bob:x:1001:1002:Bob:/home/bob\n".toList "bob".toList "x".toList
    "1001".toList "1002".toList "Bob".toList "/home/bob".toList [] (by decide) (by decide)
    (by decide) (by decide) (by decide)

/-- C9 (as stated) fails: a line of five fields with decimal uid and gid aborts
on the missing sixth field, and a decimal uid of 2^31 or more aborts as an
unexpected UID. -/
theorem parsePasswdEntry_aborts :
    isDecimal "1001".toList = true ∧
    parsePasswdEntry "bob:x:1001:1001:Bob".toList = .error (.indexOutOfRange 5 5) ∧
    isDecimal "4294967294".toList = true ∧
    parsePasswdEntry "nobody:x:4294967294:1001:Nobody:/nonexistent:/bin/false".toList
      = .error (.unexpectedUID "4294967294".toList) := by
  decide

/-! ### Programs -/

theorem bind_eq {W α β : Type} (p : Prog W α) (f : α → Prog W β) :
    (p >>= f) = Prog.bind p f := rfl

theorem pure_eq {W α : Type} (a : α) : (pure a : Prog W α) = Prog.pure a := rfl

theorem sys_eq {W : Type} (h : Host W) (c : Call) (s : Run W) :
    sys h c s = (.ok (h.os s.world c).1,
      ⟨(h.os s.world c).2, s.log ++ [(c, (h.os s.world c).1)]⟩) := rfl

/-! ### `hasEnabledPassword` and `ensureNoPassword` -/

theorem hasEnabledPassword_eq {W : Type} (h : Host W) (username : GoString) (s : Run W)
    (line f0 f1 : GoString) (more rest : List GoString)
    (hok : (h.os s.world (getentShadow username)).1.err = none)
    (hlines : split (h.os s.world (getentShadow username)).1.data "\n".toList = line :: more)
    (hfields : split line ":".toList = f0 :: f1 :: rest) :
    hasEnabledPassword h username s
      = (.ok (decide (f1 ≠ "*".toList) && !hasPrefix f1 "!".toList),
         ⟨(h.os s.world (getentShadow username)).2,
          s.log ++ [(getentShadow username, (h.os s.world (getentShadow username)).1)]⟩) := by
  simp only [hasEnabledPassword, bind_eq, pure_eq, Prog.bind, sys_eq, hok, ne_eq, not_true,
    if_false, hlines, index, List.get?, orAbort, Prog.pure, hfields]

/-- C10: when `getent shadow` returns a record whose first line has a second
colon-separated field, `hasEnabledPassword` reports the password as enabled if
and only if that field is neither `*` nor begins with `!`, and
`ensureNoPassword` issues, after the query, the lock command in exactly that
case and nothing otherwise. -/
theorem hasEnabledPassword_iff {W : Type} (h : Host W) (username : GoString) (s : Run W)
    (line f0 f1 : GoString) (more rest : List GoString)
    (hok : (h.os s.world (getentShadow username)).1.err = none)
    (hlines : split (h.os s.world (getentShadow username)).1.data "\n".toList = line :: more)
    (hfields : split line ":".toList = f0 :: f1 :: rest) :
    (∃ b, (hasEnabledPassword h username s).1 = .ok b ∧
      (b = true ↔ (f1 ≠ "*".toList ∧ hasPrefix f1 "!".toList = false))) ∧
    (ensureNoPassword h username s).2.log.map Prod.fst
      = s.log.map Prod.fst ++ getentShadow username ::
        (if f1 ≠ "*".toList ∧ hasPrefix f1 "!".toList = false then [usermodLock username]
         else []) := by
  have hq := hasEnabledPassword_eq h username s line f0 f1 more rest hok hlines hfields
  constructor
  · refine ⟨_, by rw [hq], ?_⟩
    simp only [Bool.and_eq_true, decide_eq_true_eq, Bool.not_eq_true']
  · by_cases hen : f1 ≠ "*".toList ∧ hasPrefix f1 "!".toList = false
    · have hb : (decide (f1 ≠ "*".toList) && !hasPrefix f1 "!".toList) = true := by
        simp only [Bool.and_eq_true, decide_eq_true_eq, Bool.not_eq_true']
        exact hen
      rw [if_pos hen]
      simp only [ensureNoPassword, bind_eq, Prog.bind, hq, hb, if_true, sys_eq]
      split <;> simp [fail, pure_eq, Prog.pure]
    · have hb : (decide (f1 ≠ "*".toList) && !hasPrefix f1 "!".toList) = false := by
        by_contra hcon
        apply hen
        simpa using hcon
      rw [if_neg hen]
      simp only [ensureNoPassword, bind_eq, Prog.bind, hq, hb, pure_eq, Prog.pure,
        Bool.false_eq_true, if_false, List.map_append, List.map_cons, List.map_nil]

/-- Instance of `hasEnabledPassword_iff`: the shadow record of `bob` holds a
password hash, so the password counts as enabled and the lock is issued. -/
theorem hasEnabledPassword_iff_witness :
    (∃ b, (hasEnabledPassword (scripted shadowHash) "bob".toList (start ())).1 = .ok b ∧
      (b = true ↔ ("$6$abc".toList ≠ "*".toList ∧ hasPrefix "$6$abc".toList "!".toList = false))) ∧
    (ensureNoPassword (scripted shadowHash) "bob".toList (start ())).2.log.map Prod.fst
      = (start ()).log.map Prod.fst ++ getentShadow "bob".toList ::
        (if "$6$abc".toList ≠ "*".toList ∧ hasPrefix "$6$abc".toList "!".toList = false
         then [usermodLock "bob".toList] else []) :=
  hasEnabledPassword_iff (scripted shadowHash) "bob".toList (start ())
    "bob:$6$abc:19000:0:99999:7:::".toList "bob".toList "$6$abc".toList [[]]
    ["19000".toList, "0".toList, "99999".toList, "7".toList, [], [], []]
    (by decide) (by decide) (by decide)

/-! ### Calls that leave an account alone -/

theorem quiet_pure {W α : Type} (a : GoString) (x : α) : Quiet a (pure x : Prog W α) :=
  fun s => ⟨[], by simp [pure_eq, Prog.pure], by simp⟩

theorem quiet_fail {W α : Type} (a : GoString) (e : GoError) : Quiet a (fail e : Prog W α) :=
  fun s => ⟨[], by simp [Userd.fail], by simp⟩

theorem quiet_abort {W α : Type} (a : GoString) (x : Abort) : Quiet a (abort x : Prog W α) :=
  fun s => ⟨[], by simp [Userd.abort], by simp⟩

theorem quiet_orAbort {W α : Type} (a : GoString) (x : Except Abort α) :
    Quiet a (orAbort x : Prog W α) := by
  cases x with
  | error e => exact quiet_abort a e
  | ok v => exact quiet_pure a v

theorem quiet_sys {W : Type} (a : GoString) (h : Host W) (c : Call)
    (hm : mutates a c = false) (hq : c ≠ getentShadow a) : Quiet a (sys h c) := by
  intro s
  refine ⟨[(c, (h.os s.world c).1)], rfl, ?_⟩
  intro cr hcr
  simp only [List.mem_singleton] at hcr
  subst hcr
  exact ⟨hm, hq⟩

theorem quiet_bind_post {W α β : Type} {a : GoString} {p : Prog W α} {f : α → Prog W β}
    (Post : α → Prop) (hp : Quiet a p) (hpost : ∀ s x s1, p s = (.ok x, s1) → Post x)
    (hf : ∀ x, Post x → Quiet a (f x)) : Quiet a (p >>= f) := by
  intro s
  obtain ⟨new1, hlog1, hq1⟩ := hp s
  rw [bind_eq]
  unfold Prog.bind
  rcases hps : p s with ⟨res, s1⟩
  rw [hps] at hlog1
  cases res with
  | ok x =>
    obtain ⟨new2, hlog2, hq2⟩ := hf x (hpost s x s1 hps) s1
    refine ⟨new1 ++ new2, ?_, ?_⟩
    · simp only [hlog2]
      simp only at hlog1
      rw [hlog1, List.append_assoc]
    · intro cr hcr
      rcases List.mem_append.1 hcr with h | h
      · exact hq1 cr h
      · exact hq2 cr h
  | err e => exact ⟨new1, hlog1, hq1⟩
  | abort x => exact ⟨new1, hlog1, hq1⟩

theorem quiet_bind {W α β : Type} {a : GoString} {p : Prog W α} {f : α → Prog W β}
    (hp : Quiet a p) (hf : ∀ x, Quiet a (f x)) : Quiet a (p >>= f) :=
  quiet_bind_post (fun _ => True) hp (fun _ _ _ _ => trivial) (fun x _ => hf x)

theorem quiet_wrapErr {W α : Type} {a : GoString} {p : Prog W α} (f : GoError → GoError)
    (hp : Quiet a p) : Quiet a (wrapErr f p) := by
  intro s
  obtain ⟨new, hlog, hq⟩ := hp s
  refine ⟨new, ?_, hq⟩
  unfold Userd.wrapErr
  rcases hps : p s with ⟨res, s1⟩
  rw [hps] at hlog
  cases res <;> exact hlog

theorem quiet_guarded {W α : Type} {a : GoString} {p : Prog W α} (hp : Quiet a p) (s : Run W) :
    Guarded a p s := by
  obtain ⟨new, hlog, hq⟩ := hp s
  refine ⟨new, hlog, fun cr hcr => (hq cr hcr).1, ?_⟩
  rintro ⟨cr, hcr, hsh, _⟩
  exact absurd hsh (hq cr hcr).2

theorem guarded_bind {W α β : Type} {a : GoString} {p : Prog W α} {f : α → Prog W β}
    {s : Run W} (hp : Guarded a p s)
    (hf : ∀ x s1, p s = (.ok x, s1) → Guarded a (f x) s1) : Guarded a (p >>= f) s := by
  obtain ⟨new1, hlog1, hm1, he1⟩ := hp
  rw [bind_eq]
  unfold Guarded Prog.bind
  rcases hps : p s with ⟨res, s1⟩
  rw [hps] at hlog1 he1
  cases res with
  | ok x =>
    obtain ⟨new2, hlog2, hm2, he2⟩ := hf x s1 hps
    refine ⟨new1 ++ new2, ?_, ?_, ?_⟩
    · simp only [hlog2]
      simp only at hlog1
      rw [hlog1, List.append_assoc]
    · intro cr hcr
      rcases List.mem_append.1 hcr with h | h
      · exact hm1 cr h
      · exact hm2 cr h
    · rintro ⟨cr, hcr, hsh, hen⟩
      rcases List.mem_append.1 hcr with h | h
      · obtain ⟨e, he⟩ := he1 ⟨cr, h, hsh, hen⟩
        cases he
      · exact he2 ⟨cr, h, hsh, hen⟩
  | err e => exact ⟨new1, hlog1, hm1, fun _ => ⟨e, rfl⟩⟩
  | abort x =>
    refine ⟨new1, hlog1, hm1, ?_⟩
    intro hex
    obtain ⟨e, he⟩ := he1 hex
    cases he


/-! ### The calls of each function -/

theorem quiet_getentShadow {W : Type} (h : Host W) (a n : GoString) (hne : n ≠ a) :
    Quiet a (sys h (getentShadow n)) := by
  apply quiet_sys
  · simp [mutates, getentShadow]
  · simp [getentShadow, hne]

theorem quiet_usermodLock {W : Type} (h : Host W) (a n : GoString) (hne : n ≠ a) :
    Quiet a (sys h (usermodLock n)) := by
  apply quiet_sys
  · simp [mutates, usermodLock, hne]
  · simp [getentShadow, usermodLock]

theorem quiet_usermodGroups {W : Type} (h : Host W) (a j n : GoString) (hne : n ≠ a) :
    Quiet a (sys h (usermodGroups j n)) := by
  apply quiet_sys
  · simp [mutates, usermodGroups, hne]
  · simp [getentShadow, usermodGroups]

theorem quiet_deluser {W : Type} (h : Host W) (a n : GoString) (hne : n ≠ a) :
    Quiet a (sys h (deluser n)) := by
  apply quiet_sys
  · simp [mutates, deluser, hne]
  · simp [getentShadow, deluser]

theorem quiet_groupsOf {W : Type} (h : Host W) (a n : GoString) :
    Quiet a (sys h (groupsOf n)) := by
  apply quiet_sys
  · simp [mutates, groupsOf]
  · simp [getentShadow, groupsOf]

theorem quiet_getentPasswd {W : Type} (h : Host W) (a n : GoString) :
    Quiet a (sys h (getentPasswd n)) := by
  apply quiet_sys
  · simp [mutates, getentPasswd]
  · simp [getentShadow, getentPasswd]

theorem quiet_adduser {W : Type} (h : Host W) (a g home n : GoString) :
    Quiet a (sys h (adduser g home n)) := by
  apply quiet_sys
  · simp [mutates, adduser]
  · simp [getentShadow, adduser]

theorem quiet_removeUser {W : Type} (h : Host W) (a n : GoString) (hne : n ≠ a) :
    Quiet a (removeUser h n) := by
  unfold removeUser
  apply quiet_bind (quiet_deluser h a n hne)
  intro r
  split
  · exact quiet_fail a _
  · exact quiet_pure a _

theorem quiet_addUser {W : Type} (h : Host W) (a n g home : GoString) :
    Quiet a (addUser h n g home) := by
  unfold addUser
  apply quiet_bind (quiet_adduser h a g home n)
  intro r
  split
  · exact quiet_fail a _
  · apply quiet_bind (quiet_getentPasswd h a n)
    intro q
    split
    · exact quiet_fail a _
    · exact quiet_orAbort a _

theorem quiet_getExistingUsers {W : Type} (h : Host W) (a : GoString) :
    Quiet a (getExistingUsers h) := by
  unfold getExistingUsers
  apply quiet_bind
  · apply quiet_sys
    · simp [mutates, getentAll]
    · simp [getentShadow, getentAll]
  · intro r
    split
    · exact quiet_fail a _
    · exact quiet_orAbort a _

theorem quiet_groupsLoop {W : Type} (h : Host W) (a : GoString) (u : PasswdEntry)
    (hne : u.Username ≠ a) (wanted : List GoString) (pairs : List (GoString × GoString)) :
    Quiet a (groupsLoop h u wanted pairs) := by
  induction pairs with
  | nil => exact quiet_pure a _
  | cons p rest ih =>
    obtain ⟨c, w⟩ := p
    unfold groupsLoop
    split
    · apply quiet_bind (quiet_usermodGroups h a _ _ hne)
      intro r
      split
      · exact quiet_fail a _
      · exact ih
    · exact ih

theorem quiet_ensureGroups {W : Type} (h : Host W) (a : GoString) (u : PasswdEntry)
    (hne : u.Username ≠ a) (wanted : List GoString) : Quiet a (ensureGroups h u wanted) := by
  unfold ensureGroups
  apply quiet_bind (quiet_groupsOf h a _)
  intro r
  split
  · exact quiet_fail a _
  · apply quiet_bind (quiet_orAbort a _)
    intro groupsStr
    simp only []
    split
    · exact quiet_groupsLoop h a u hne _ _
    · exact quiet_pure a _

theorem quiet_hasEnabledPassword {W : Type} (h : Host W) (a n : GoString) (hne : n ≠ a) :
    Quiet a (hasEnabledPassword h n) := by
  unfold hasEnabledPassword
  apply quiet_bind (quiet_getentShadow h a n hne)
  intro r
  split
  · exact quiet_fail a _
  · apply quiet_bind (quiet_orAbort a _)
    intro line
    apply quiet_bind (quiet_orAbort a _)
    intro field
    exact quiet_pure a _

theorem quiet_ensureNoPassword {W : Type} (h : Host W) (a n : GoString) (hne : n ≠ a) :
    Quiet a (ensureNoPassword h n) := by
  unfold ensureNoPassword
  apply quiet_bind (quiet_hasEnabledPassword h a n hne)
  intro b
  split
  · apply quiet_bind (quiet_usermodLock h a n hne)
    intro r
    split
    · exact quiet_fail a _
    · exact quiet_pure a _
  · exact quiet_pure a _

theorem quiet_checkNoPassword {W : Type} (h : Host W) (a n : GoString) (hne : n ≠ a) :
    Quiet a (checkNoPassword h n) := by
  unfold checkNoPassword
  apply quiet_bind (quiet_hasEnabledPassword h a n hne)
  intro b
  split
  · exact quiet_fail a _
  · exact quiet_pure a _

theorem quiet_file_call {W : Type} (h : Host W) (a : GoString) (c : Call)
    (hc : ∀ name args, c ≠ .exec name args) : Quiet a (sys h c) := by
  apply quiet_sys
  · cases c <;> first | rfl | exact absurd rfl (hc _ _)
  · exact hc _ _

theorem quiet_checkNoAuthorizedKeys {W : Type} (h : Host W) (a : GoString) (user : PasswdEntry) :
    Quiet a (checkNoAuthorizedKeys h user) := by
  unfold checkNoAuthorizedKeys
  apply quiet_bind (quiet_file_call h a _ (by intro _ _ hc; cases hc))
  intro r
  split
  · exact quiet_fail a _
  · exact quiet_pure a _
  · exact quiet_fail a _


theorem quiet_ite {W α : Type} {a : GoString} {p q : Prog W α} (c : Prop) [Decidable c]
    (hp : Quiet a p) (hq : Quiet a q) : Quiet a (if c then p else q) := by
  split
  · exact hp
  · exact hq

theorem quiet_ensureFileContent {W : Type} (h : Host W) (a filename content : GoString) :
    Quiet a (ensureFileContent h filename content) := by
  have hfile : ∀ c : Call, (∀ name args, c ≠ .exec name args) → Quiet a (sys h c) :=
    fun c hc => quiet_file_call h a c hc
  unfold ensureFileContent
  apply quiet_bind (hfile _ (by intro _ _ hc; cases hc))
  intro rd
  split
  · exact quiet_fail a _
  · simp only []
    apply quiet_ite
    · exact quiet_pure a _
    · apply quiet_bind (hfile _ (by intro _ _ hc; cases hc))
      intro tf
      split
      · exact quiet_fail a _
      · apply quiet_bind (hfile _ (by intro _ _ hc; cases hc))
        intro w1
        apply quiet_bind
        · split
          · exact hfile _ (by intro _ _ hc; cases hc)
          · exact quiet_pure a _
        · intro w2
          split
          · apply quiet_bind (hfile _ (by intro _ _ hc; cases hc))
            intro _
            exact quiet_fail a _
          · apply quiet_bind (hfile _ (by intro _ _ hc; cases hc))
            intro cl
            split
            · apply quiet_bind (hfile _ (by intro _ _ hc; cases hc))
              intro _
              exact quiet_fail a _
            · apply quiet_bind (hfile _ (by intro _ _ hc; cases hc))
              intro rn
              split
              · exact quiet_fail a _
              · exact quiet_pure a _

theorem quiet_setAuthorizedKeys {W : Type} (h : Host W) (a : GoString) (u : localUser)
    (keys : GoString) : Quiet a (setAuthorizedKeys h u keys) := by
  unfold setAuthorizedKeys
  simp only []
  apply quiet_bind (quiet_file_call h a _ (by intro _ _ hc; cases hc))
  intro st
  split
  · apply quiet_bind (quiet_file_call h a _ (by intro _ _ hc; cases hc))
    intro mk
    split
    · exact quiet_fail a _
    · apply quiet_bind (quiet_file_call h a _ (by intro _ _ hc; cases hc))
      intro ch
      split
      · exact quiet_fail a _
      · exact quiet_ensureFileContent h a _ _
  · exact quiet_ensureFileContent h a _ _

theorem quiet_fetchKeys {W : Type} (h : Host W) (a : GoString) (u : localUser) :
    Quiet a (fetchKeys h u) := by
  unfold fetchKeys
  split
  · apply quiet_bind (quiet_file_call h a _ (by intro _ _ hc; cases hc))
    intro resp
    split
    · exact quiet_fail a _
    · split
      · exact quiet_fail a _
      · apply quiet_bind (quiet_file_call h a _ (by intro _ _ hc; cases hc))
        intro body
        split
        · exact quiet_fail a _
        · exact quiet_pure a _
  · exact quiet_pure a _

theorem quiet_syncKeys {W : Type} (h : Host W) (a : GoString) (u : localUser) :
    Quiet a (syncKeys h u) := by
  unfold syncKeys
  apply quiet_bind (quiet_fetchKeys h a u)
  intro fetched
  simp only []
  split
  · exact quiet_abort a _
  · exact quiet_setAuthorizedKeys h a _ _

theorem addUser_username {W : Type} (h : Host W) (n : GoString)
    (hquery : ∀ w e, (h.os w (getentPasswd n)).1.err = none →
      parsePasswdEntry (h.os w (getentPasswd n)).1.data = .ok e → e.Username = n)
    (g home : GoString) (s s1 : Run W) (e : PasswdEntry)
    (hrun : addUser h n g home s = (.ok e, s1)) : e.Username = n := by
  simp only [addUser, bind_eq, Prog.bind, sys_eq] at hrun
  split at hrun
  · simp [fail] at hrun
  · simp only [Prog.bind, sys_eq] at hrun
    split at hrun
    · simp [fail] at hrun
    · next hok1 hok2 =>
      cases hp : parsePasswdEntry (h.os (h.os s.world (adduser g home n)).2 (getentPasswd n)).1.data with
      | error x => simp [hp, orAbort, abort] at hrun
      | ok e' =>
        simp only [hp, orAbort, Prog.pure, Prod.mk.injEq, Outcome.ok.injEq] at hrun
        rw [← hrun.1]
        exact hquery _ e' (by simpa using hok2) hp

theorem quiet_syncUser {W : Type} (h : Host W) (a : GoString)
    (existingUsers : List (GoString × PasswdEntry)) (hkeyed : KeyedByName existingUsers)
    (u : localUser) (hne : u.Username ≠ a)
    (hquery : ∀ w e, (h.os w (getentPasswd u.Username)).1.err = none →
      parsePasswdEntry (h.os w (getentPasswd u.Username)).1.data = .ok e →
      e.Username = u.Username) : Quiet a (syncUser h existingUsers u) := by
  have hrest : ∀ e : PasswdEntry, e.Username = u.Username → Quiet a (do
      wrapErr (.settingUpGroups u.Username) (ensureGroups h e
        ({ u with Home := e.Home, GID := e.GID, UID := e.UID } : localUser).getGroups)
      (if !u.CanHavePassword then ensureNoPassword h u.Username else pure ())
      syncKeys h { u with Home := e.Home, GID := e.GID, UID := e.UID }) := by
    intro e he
    apply quiet_bind
    · apply quiet_wrapErr
      exact quiet_ensureGroups h a e (by rw [he]; exact hne) _
    · intro _
      apply quiet_bind
      · apply quiet_ite
        · exact quiet_ensureNoPassword h a _ hne
        · exact quiet_pure a _
      · intro _
        exact quiet_syncKeys h a _
  unfold syncUser
  cases hget : mapGet existingUsers u.Username with
  | some e =>
    intro s
    have := hrest e (hkeyed.2 _ _ (mem_of_mapGet _ _ _ hget)) s
    simpa [bind_eq, pure_eq, Prog.bind, Prog.pure] using this
  | none =>
    apply quiet_bind_post (fun e => e.Username = u.Username) (quiet_addUser h a _ _ _)
    · intro s x s1 hrun
      exact addUser_username h u.Username hquery _ _ s s1 x hrun
    · intro e he
      exact hrest e he

theorem quiet_syncLoop {W : Type} (h : Host W) (a : GoString)
    (existingUsers : List (GoString × PasswdEntry)) (hkeyed : KeyedByName existingUsers)
    (users : List (GoString × localUser)) (hne : ∀ k u, (k, u) ∈ users → u.Username ≠ a)
    (hquery : ∀ k u, (k, u) ∈ users → ∀ w e, (h.os w (getentPasswd u.Username)).1.err = none →
      parsePasswdEntry (h.os w (getentPasswd u.Username)).1.data = .ok e →
      e.Username = u.Username) :
    Quiet a (syncLoop h existingUsers users) := by
  induction users with
  | nil => exact quiet_pure a _
  | cons p rest ih =>
    obtain ⟨k, u⟩ := p
    unfold syncLoop
    apply quiet_bind
    · exact quiet_syncUser h a existingUsers hkeyed u (hne k u (List.mem_cons_self _ _))
        (hquery k u (List.mem_cons_self _ _))
    · intro _
      exact ih (fun k' u' hmem => hne k' u' (List.mem_cons_of_mem _ hmem))
        (fun k' u' hmem => hquery k' u' (List.mem_cons_of_mem _ hmem))


theorem checkNoPassword_run {W : Type} (h : Host W) (a : GoString) (s : Run W) :
    (checkNoPassword h a s).2.log = s.log ++ [(getentShadow a, (h.os s.world (getentShadow a)).1)] ∧
    (passwordEnabled (h.os s.world (getentShadow a)).1 = true →
      ∃ e, (checkNoPassword h a s).1 = .err e) := by
  cases herr : (h.os s.world (getentShadow a)).1.err with
  | some e =>
    simp [checkNoPassword, hasEnabledPassword, bind_eq, Prog.bind, sys_eq, herr, fail]
  | none =>
    cases hl : index (split (h.os s.world (getentShadow a)).1.data "\n".toList) 0 with
    | error x =>
      simp only [checkNoPassword, hasEnabledPassword, bind_eq, Prog.bind, sys_eq, herr, hl, orAbort,
        abort, passwordEnabled, ne_eq, not_true, if_false, Bool.false_eq_true, false_implies,
        and_true]
    | ok line =>
      cases hf : index (split line ":".toList) 1 with
      | error x =>
        simp only [checkNoPassword, hasEnabledPassword, bind_eq, Prog.bind, sys_eq, herr, hl, hf,
          orAbort, abort, passwordEnabled, Prog.pure, ne_eq, not_true, if_false,
          Bool.false_eq_true, false_implies, and_true]
      | ok field =>
        by_cases hb : (decide (field ≠ "*".toList) && !hasPrefix field "!".toList) = true
        · simp only [checkNoPassword, hasEnabledPassword, bind_eq, Prog.bind, sys_eq, herr, hl, hf,
            orAbort, passwordEnabled, Prog.pure, pure_eq, ne_eq, not_true, if_false, hb, if_true,
            fail]
          exact ⟨trivial, fun _ => ⟨_, rfl⟩⟩
        · simp only [checkNoPassword, hasEnabledPassword, bind_eq, Prog.bind, sys_eq, herr, hl, hf,
            orAbort, passwordEnabled, Prog.pure, pure_eq, ne_eq, not_true, if_false, hb,
            Bool.false_eq_true, false_implies, and_true]

theorem guarded_checkNoPassword {W : Type} (h : Host W) (a : GoString) (s : Run W) :
    Guarded a (checkNoPassword h a) s := by
  have hm : mutates a (getentShadow a) = false := by simp [mutates, getentShadow]
  obtain ⟨hlog, herr⟩ := checkNoPassword_run h a s
  refine ⟨[(getentShadow a, (h.os s.world (getentShadow a)).1)], hlog, ?_, ?_⟩
  · intro cr hcr
    simp only [List.mem_singleton] at hcr
    rw [hcr]
    exact hm
  · rintro ⟨cr, hcr, -, hen⟩
    simp only [List.mem_singleton] at hcr
    rw [hcr] at hen
    exact herr hen

theorem guarded_removalStep {W : Type} (h : Host W) (a : GoString)
    (users : List (GoString × localUser)) (habsent : mapGet users a = none)
    (k : GoString) (e : PasswdEntry) (huid : k = a → e.UID < 1000) (s : Run W) :
    Guarded a (removalStep h users k e) s := by
  by_cases hk : k = a
  · subst hk
    have hlt := huid rfl
    simp only [removalStep, habsent, hlt, if_true]
    exact guarded_bind (guarded_checkNoPassword h k s)
      (fun _ s1 _ => quiet_guarded (quiet_checkNoAuthorizedKeys h k e) s1)
  · apply quiet_guarded
    unfold removalStep
    split
    · exact quiet_pure a _
    · apply quiet_ite
      · exact quiet_bind (quiet_checkNoPassword h a k hk)
          (fun _ => quiet_checkNoAuthorizedKeys h a e)
      · exact quiet_removeUser h a k hk

theorem guarded_removalLoop {W : Type} (h : Host W) (a : GoString)
    (users : List (GoString × localUser)) (habsent : mapGet users a = none)
    (l : List (GoString × PasswdEntry)) (huid : ∀ e, (a, e) ∈ l → e.UID < 1000) (s : Run W) :
    Guarded a (removalLoop h users l) s := by
  induction l generalizing s with
  | nil => exact quiet_guarded (quiet_pure a ()) s
  | cons p rest ih =>
    obtain ⟨k, e⟩ := p
    unfold removalLoop
    apply guarded_bind
    · exact guarded_removalStep h a users habsent k e
        (fun hk => huid e (by rw [hk]; exact List.mem_cons_self _ _)) s
    · intro _ s1 _
      exact ih (fun e' he' => huid e' (List.mem_cons_of_mem _ he')) s1

theorem mapSet_keys_of_present {β : Type} (m : List (GoString × β)) (k : GoString) (v v' : β)
    (h : mapGet m k = some v') : (mapSet m k v).map Prod.fst = m.map Prod.fst := by
  induction m with
  | nil => simp [mapGet] at h
  | cons kv rest ih =>
    obtain ⟨k0, v0⟩ := kv
    by_cases h0 : k0 = k
    · simp [mapSet, h0]
    · simp only [mapGet, h0, if_false] at h
      simp [mapSet, h0, ih h]

theorem mem_mapSet {β : Type} (m : List (GoString × β)) (k : GoString) (v : β)
    (k' : GoString) (v' : β) (h : (k', v') ∈ mapSet m k v) : (k', v') = (k, v) ∨ (k', v') ∈ m := by
  induction m with
  | nil =>
    simp only [mapSet, List.mem_singleton] at h
    exact Or.inl h
  | cons kv rest ih =>
    obtain ⟨k0, v0⟩ := kv
    by_cases h0 : k0 = k
    · simp only [mapSet, h0, if_true, List.mem_cons] at h
      rcases h with h | h
      · exact Or.inl h
      · exact Or.inr (List.mem_cons_of_mem _ h)
    · simp only [mapSet, h0, if_false, List.mem_cons] at h
      rcases h with h | h
      · exact Or.inr (h ▸ List.mem_cons_self _ _)
      · rcases ih h with h | h
        · exact Or.inl h
        · exact Or.inr (List.mem_cons_of_mem _ h)

theorem mapSet_keyed (m : List (GoString × PasswdEntry)) (e : PasswdEntry)
    (hk : KeyedByName m) : KeyedByName (mapSet m e.Username e) := by
  constructor
  · cases hget : mapGet m e.Username with
    | none => exact mapSet_nodup_of_absent m _ _ hget hk.1
    | some v' =>
      rw [mapSet_keys_of_present m _ e v' hget]
      exact hk.1
  · intro k' e' hmem
    rcases mem_mapSet m _ _ k' e' hmem with h | h
    · cases h
      rfl
    · exact hk.2 k' e' h

theorem collectUsers_keyed (lines : List GoString) (m m' : List (GoString × PasswdEntry))
    (hrun : collectUsers m lines = .ok m') (hk : KeyedByName m) : KeyedByName m' := by
  induction lines generalizing m with
  | nil =>
    simp only [collectUsers, Except.ok.injEq] at hrun
    exact hrun ▸ hk
  | cons line rest ih =>
    simp only [collectUsers] at hrun
    split at hrun
    · exact ih m hrun hk
    · cases hp : parsePasswdEntry line with
      | error x => simp [hp] at hrun
      | ok e =>
        simp only [hp] at hrun
        exact ih _ hrun (mapSet_keyed m e hk)

theorem getExistingUsers_keyed {W : Type} (h : Host W) (s : Run W)
    (m : List (GoString × PasswdEntry)) (hrun : (getExistingUsers h s).1 = .ok m) :
    KeyedByName m := by
  simp only [getExistingUsers, bind_eq, Prog.bind, sys_eq] at hrun
  split at hrun
  · simp [fail] at hrun
  · cases hc : collectUsers [] (split (h.os s.world getentAll).1.data "\n".toList) with
    | error x => simp only [hc, orAbort, abort] at hrun
                 cases hrun
    | ok m0 =>
      simp only [hc, orAbort, Prog.pure, Outcome.ok.injEq] at hrun
      rw [← hrun]
      exact collectUsers_keyed _ [] m0 hc ⟨List.nodup_nil, fun _ _ hmem => by cases hmem⟩

/-! ### The protected account when the second loop reaches it -/

theorem bind_run {W α β : Type} (p : Prog W α) (f : α → Prog W β) (s s1 : Run W) (x : α)
    (hp : p s = (.ok x, s1)) : (p >>= f) s = f x s1 := by
  simp only [bind_eq, Prog.bind, hp]

theorem bind_ok {W α β : Type} (p : Prog W α) (f : α → Prog W β) (s s2 : Run W) (y : β)
    (hrun : (p >>= f) s = (.ok y, s2)) : ∃ x s1, p s = (.ok x, s1) ∧ f x s1 = (.ok y, s2) := by
  simp only [bind_eq, Prog.bind] at hrun
  rcases hp : p s with ⟨r, s1⟩
  rw [hp] at hrun
  cases r with
  | ok x => exact ⟨x, s1, rfl, hrun⟩
  | err e => cases hrun
  | abort a => cases hrun

theorem removalLoop_append {W : Type} (h : Host W) (users : List (GoString × localUser))
    (pre l : List (GoString × PasswdEntry)) (s s1 : Run W)
    (hpre : removalLoop h users pre s = (.ok (), s1)) :
    removalLoop h users (pre ++ l) s = removalLoop h users l s1 := by
  induction pre generalizing s with
  | nil =>
    simp only [removalLoop, pure_eq, Prog.pure, Prod.mk.injEq, true_and] at hpre
    rw [List.nil_append, hpre]
  | cons p rest ih =>
    obtain ⟨k, e⟩ := p
    simp only [removalLoop, List.cons_append] at hpre ⊢
    obtain ⟨x, s0, hstep, hrest⟩ := bind_ok _ _ s s1 () hpre
    rw [bind_run _ _ s s0 x hstep]
    exact ih s0 hrest

theorem checkNoPassword_enabled {W : Type} (h : Host W) (a : GoString) (s : Run W)
    (hen : passwordEnabled (h.os s.world (getentShadow a)).1 = true) :
    checkNoPassword h a s = (.err (.enabledPassword a),
      ⟨(h.os s.world (getentShadow a)).2,
       s.log ++ [(getentShadow a, (h.os s.world (getentShadow a)).1)]⟩) := by
  simp only [passwordEnabled] at hen
  cases herr : (h.os s.world (getentShadow a)).1.err with
  | some e =>
    simp only [herr] at hen
    cases hen
  | none =>
    rw [herr] at hen
    cases hl : index (split (h.os s.world (getentShadow a)).1.data "\n".toList) 0 with
    | error x =>
      simp only [hl] at hen
      cases hen
    | ok line =>
      simp only [hl] at hen
      cases hf : index (split line ":".toList) 1 with
      | error x =>
        simp only [hf] at hen
        cases hen
      | ok field =>
        simp only [hf] at hen
        simp only [checkNoPassword, hasEnabledPassword, bind_eq, Prog.bind, sys_eq, herr, hl, hf,
          orAbort, Prog.pure, pure_eq, ne_eq, not_true, if_false, hen, if_true, fail]

theorem removalStep_enabled {W : Type} (h : Host W) (users : List (GoString × localUser))
    (a : GoString) (e : PasswdEntry) (habsent : mapGet users a = none) (huid : e.UID < 1000)
    (s : Run W) (hen : passwordEnabled (h.os s.world (getentShadow a)).1 = true) :
    removalStep h users a e s = (.err (.enabledPassword a),
      ⟨(h.os s.world (getentShadow a)).2,
       s.log ++ [(getentShadow a, (h.os s.world (getentShadow a)).1)]⟩) := by
  simp only [removalStep, habsent, huid, if_true, bind_eq, Prog.bind,
    checkNoPassword_enabled h a s hen]

theorem syncUsers_reaches {W : Type} (h : Host W)
    (users : List (GoString × localUser)) (w : W)
    (existingUsers : List (GoString × PasswdEntry)) (a : GoString) (e : PasswdEntry)
    (hsnapshot : (getExistingUsers h (start w)).1 = .ok existingUsers)
    (habsent : mapGet users a = none) (huid : e.UID < 1000)
    (visited rest : List (GoString × PasswdEntry))
    (horder : h.rangeOrder existingUsers = visited ++ (a, e) :: rest) (s : Run W)
    (hreach : syncUsersUntil h users visited (start w) = (.ok (), s))
    (hen : passwordEnabled (h.os s.world (getentShadow a)).1 = true) :
    syncUsers h users (start w) = (.err (.enabledPassword a),
      ⟨(h.os s.world (getentShadow a)).2,
       s.log ++ [(getentShadow a, (h.os s.world (getentShadow a)).1)]⟩) := by
  unfold syncUsersUntil at hreach
  obtain ⟨x, s0, h0, hreach⟩ := bind_ok _ _ _ _ _ hreach
  have hx : x = existingUsers := by
    rw [h0] at hsnapshot
    simpa using hsnapshot
  subst hx
  obtain ⟨_, s1, h1, h2⟩ := bind_ok _ _ _ _ _ hreach
  unfold syncUsers
  rw [bind_run _ _ _ _ _ h0, bind_run _ _ _ _ _ h1, horder,
    removalLoop_append h users visited _ s1 s h2]
  simp only [removalLoop, bind_eq, Prog.bind, removalStep_enabled h users a e habsent huid s hen]

/-- C4 (amended): in a run of `syncUsers` from any world, on a host that answers
`getent passwd <name>` for a desired user with the record of `<name>`, for an
existing account `a` of uid below 1000 that is neither a key of the desired map
nor the `Username` of one of its records: no `deluser` or `usermod` command
(removal, group change, password lock) is issued for `a`; the second loop does
visit `a`; and when the run up to that visit has completed and the host then
answers the shadow query for `a` with an enabled password, `syncUsers` makes
that query and returns the error `enabledPassword a` at once. -/
theorem syncUsers_protected_account {W : Type} (h : Host W)
    (usersFromDirectory : List (GoString × localUser)) (w : W)
    (existingUsers : List (GoString × PasswdEntry)) (a : GoString) (e : PasswdEntry)
    (hquery : ∀ k u, (k, u) ∈ usersFromDirectory →
      ∀ w' e', (h.os w' (getentPasswd u.Username)).1.err = none →
        parsePasswdEntry (h.os w' (getentPasswd u.Username)).1.data = .ok e' →
        e'.Username = u.Username)
    (hrange : ∀ m, (h.rangeOrder m).Perm m)
    (hsnapshot : (getExistingUsers h (start w)).1 = .ok existingUsers)
    (hexisting : mapGet existingUsers a = some e) (huid : e.UID < 1000)
    (habsent : mapGet usersFromDirectory a = none)
    (hnoRecord : ∀ k u, (k, u) ∈ usersFromDirectory → u.Username ≠ a) :
    (∀ cr, cr ∈ (syncUsers h usersFromDirectory (start w)).2.log → mutates a cr.1 = false) ∧
    (∃ visited rest, h.rangeOrder existingUsers = visited ++ (a, e) :: rest) ∧
    (∀ visited rest s, h.rangeOrder existingUsers = visited ++ (a, e) :: rest →
      syncUsersUntil h usersFromDirectory visited (start w) = (.ok (), s) →
      passwordEnabled (h.os s.world (getentShadow a)).1 = true →
      syncUsers h usersFromDirectory (start w) = (.err (.enabledPassword a),
        ⟨(h.os s.world (getentShadow a)).2,
         s.log ++ [(getentShadow a, (h.os s.world (getentShadow a)).1)]⟩)) := by
  have hkeyed := getExistingUsers_keyed h (start w) existingUsers hsnapshot
  have hg : Guarded a (syncUsers h usersFromDirectory) (start w) := by
    unfold syncUsers
    apply guarded_bind (quiet_guarded (quiet_getExistingUsers h a) _)
    intro x s1 hx
    have hxe : x = existingUsers := by
      rw [hx] at hsnapshot
      simpa using hsnapshot
    subst hxe
    apply guarded_bind
      (quiet_guarded (quiet_syncLoop h a x hkeyed usersFromDirectory hnoRecord hquery) _)
    intro _ s2 _
    apply guarded_removalLoop h a usersFromDirectory habsent
    intro e' he'
    have hmem : (a, e') ∈ x := (hrange x).subset he'
    have := mapGet_of_mem x hkeyed.1 a e' hmem
    rw [hexisting] at this
    cases this
    exact huid
  obtain ⟨new, hlog, hm, _⟩ := hg
  simp only [start, List.nil_append] at hlog
  refine ⟨?_, ?_, ?_⟩
  · rw [show (syncUsers h usersFromDirectory (start w)).2.log = new from hlog]
    exact hm
  · have hmem : (a, e) ∈ h.rangeOrder existingUsers :=
      (hrange existingUsers).symm.subset (mem_of_mapGet existingUsers a e hexisting)
    exact List.append_of_mem hmem
  · intro visited rest s horder hreach hen
    exact syncUsers_reaches h usersFromDirectory w existingUsers a e hsnapshot habsent huid
      visited rest horder s hreach hen

/-- Instance of `syncUsers_protected_account`: on `smallHost` the account
`daemon` (uid 1) is absent from the desired users `bob` (existing) and `alice`
(to be created), the run reaches `daemon` after `root`, and its shadow record
holds a password hash. -/
theorem syncUsers_protected_account_witness :
    ((syncUsersUntil (scripted smallHost) smallDesired
        [("root".toList, ⟨"root".toList, 0, 0, "root".toList, "/root".toList, "/bin/bash".toList⟩)]
        (start ())).1 = .ok () ∧
      passwordEnabled ((scripted smallHost).os () (getentShadow "daemon".toList)).1 = true ∧
      (syncUsers (scripted smallHost) smallDesired (start ())).1
        = .err (.enabledPassword "daemon".toList)) ∧
    ((∀ cr, cr ∈ (syncUsers (scripted smallHost) smallDesired (start ())).2.log →
        mutates "daemon".toList cr.1 = false) ∧
      (∃ visited rest,
        (scripted smallHost).rangeOrder smallExisting = visited ++ ("daemon".toList, daemonEntry) :: rest) ∧
      (∀ visited rest s,
        (scripted smallHost).rangeOrder smallExisting = visited ++ ("daemon".toList, daemonEntry) :: rest →
        syncUsersUntil (scripted smallHost) smallDesired visited (start ()) = (.ok (), s) →
        passwordEnabled ((scripted smallHost).os s.world (getentShadow "daemon".toList)).1 = true →
        syncUsers (scripted smallHost) smallDesired (start ()) = (.err (.enabledPassword "daemon".toList),
          ⟨((scripted smallHost).os s.world (getentShadow "daemon".toList)).2,
           s.log ++ [(getentShadow "daemon".toList,
             ((scripted smallHost).os s.world (getentShadow "daemon".toList)).1)]⟩))) :=
  ⟨⟨by decide, by decide, by decide⟩,
   syncUsers_protected_account (scripted smallHost) smallDesired () smallExisting "daemon".toList
    daemonEntry
    (by
      intro k u hmem w' e' _ hparse
      cases w'
      simp only [smallDesired, List.mem_cons, Prod.mk.injEq, List.mem_singleton,
        List.not_mem_nil, or_false] at hmem
      rcases hmem with ⟨rfl, rfl⟩ | ⟨rfl, rfl⟩
      · have hp : parsePasswdEntry ((scripted smallHost).os () (getentPasswd "bob".toList)).1.data
            = .ok ⟨"bob".toList, 1001, 1001, "Bob".toList, "/home/bob".toList,
                "/bin/bash".toList⟩ := by decide
        rw [hp] at hparse
        cases hparse
        rfl
      · have hp : parsePasswdEntry ((scripted smallHost).os () (getentPasswd "alice".toList)).1.data
            = .ok ⟨"alice".toList, 1002, 1002, "Alice".toList, "/home/alice".toList,
                "/bin/bash".toList⟩ := by decide
        rw [hp] at hparse
        cases hparse
        rfl)
    (fun m => List.Perm.refl m) (by decide) (by decide) (by decide) (by decide)
    (by
      intro k u hmem
      simp only [smallDesired, List.mem_cons, Prod.mk.injEq, List.mem_singleton,
        List.not_mem_nil, or_false] at hmem
      rcases hmem with ⟨rfl, rfl⟩ | ⟨rfl, rfl⟩ <;> decide)⟩

/-- C4 (as stated) fails.  On a host that answers the query after creating
`alice` with the record of `daemon`, `usermod --groups dev daemon` is issued
for the account `daemon` (uid 1), which is no key and no `Username` of the
desired map; and for a desired map that holds a record named `daemon` under
the key `x`, `usermod --lock daemon` is issued although the key `daemon` is
absent from the map. -/
theorem syncUsers_changes_protected_account :
    ((getExistingUsers (scripted wrongRecordHost) (start ())).1 = .ok twoExisting ∧
      mapGet twoExisting "daemon".toList = some daemonEntry ∧ daemonEntry.UID < 1000 ∧
      mapGet aliceDesired "daemon".toList = none ∧
      (∀ kv ∈ aliceDesired, kv.2.Username ≠ "daemon".toList) ∧
      usermodGroups "dev".toList "daemon".toList
        ∈ (syncUsers (scripted wrongRecordHost) aliceDesired (start ())).2.log.map Prod.fst ∧
      mutates "daemon".toList (usermodGroups "dev".toList "daemon".toList) = true) ∧
    ((getExistingUsers (scripted smallHost) (start ())).1 = .ok smallExisting ∧
      mapGet smallExisting "daemon".toList = some daemonEntry ∧
      mapGet misfiledDesired "daemon".toList = none ∧
      usermodLock "daemon".toList
        ∈ (syncUsers (scripted smallHost) misfiledDesired (start ())).2.log.map Prod.fst ∧
      mutates "daemon".toList (usermodLock "daemon".toList) = true) := by
  refine ⟨⟨?_, ?_, ?_, ?_, ?_, ?_, ?_⟩, ⟨?_, ?_, ?_, ?_, ?_⟩⟩ <;> decide

/-! ### The halves of C2, C3 and C8 that hold -/

theorem groupsLoop_same {W : Type} (h : Host W) (u : PasswdEntry) (wanted l : List GoString)
    (s : Run W) : groupsLoop h u wanted (l.zip l) s = (.ok (), s) := by
  induction l with
  | nil => rfl
  | cons x rest ih =>
    simp only [List.zip_cons_cons, groupsLoop, ne_eq, not_true, if_false]
    exact ih

/-- The half of C2 that holds: when the sorted current groups equal the sorted
wanted groups, `ensureGroups` makes the `groups` query and nothing else. -/
theorem ensureGroups_equal_no_command {W : Type} (h : Host W) (u : PasswdEntry)
    (wantedGroups : List GoString) (s : Run W) (groupsStr : GoString)
    (hok : (h.os s.world (groupsOf u.Username)).1.err = none)
    (hout : index (split (trimSpace (h.os s.world (groupsOf u.Username)).1.data) " : ".toList) 1
      = .ok groupsStr)
    (hsame : sortStrings (split groupsStr " ".toList) = sortStrings wantedGroups) :
    ensureGroups h u wantedGroups s
      = (.ok (), ⟨(h.os s.world (groupsOf u.Username)).2,
          s.log ++ [(groupsOf u.Username, (h.os s.world (groupsOf u.Username)).1)]⟩) := by
  simp only [ensureGroups, bind_eq, Prog.bind, sys_eq, hok, ne_eq, not_true, if_false, hout,
    orAbort, Prog.pure, hsame, if_true, groupsLoop_same]

/-- The branch of `ensureFileContent` that C3 relies on: when the file reads as
exactly the content, nothing is written. -/
theorem ensureFileContent_same_content {W : Type} (h : Host W) (filename content : GoString)
    (s : Run W) (hok : (h.os s.world (.readFile filename)).1.err = none)
    (hsame : (h.os s.world (.readFile filename)).1.data = content) :
    ensureFileContent h filename content s
      = (.ok (), ⟨(h.os s.world (.readFile filename)).2,
          s.log ++ [(.readFile filename, (h.os s.world (.readFile filename)).1)]⟩) := by
  simp only [ensureFileContent, bind_eq, Prog.bind, sys_eq, hok, hsame]
  have hex : (if (none : Option SysErr) = some SysErr.notExist then ([] : GoString) else content)
      = content := if_neg (by simp)
  rw [hex, if_pos rfl]
  rfl

/-- The half of C8 that holds: with a non-empty email and full name the comment
field is the full name with commas replaced, then the email in angle brackets
and three commas. -/
theorem gecosString_with_email (u : localUser) (hemail : u.Email ≠ []) (hname : u.FullName ≠ []) :
    u.gecosString = replaceAll u.FullName ",".toList "_".toList ++ " <".toList ++ u.Email
      ++ ">,,,".toList := by
  simp only [localUser.gecosString, hemail, hname, ne_eq, not_false_eq_true, and_self, if_true]

theorem replaceAll_comma_free (s : GoString) :
    ∀ c ∈ replaceAll s ",".toList "_".toList, c ≠ ',' := by
  unfold replaceAll
  induction s with
  | nil => simp [replaceAllAux]
  | cons d rest ih =>
    intro c hc
    have hlen : (",".toList).length - 1 = 0 := rfl
    simp only [replaceAllAux, hlen] at hc
    split at hc
    · rcases List.mem_append.1 hc with h | h
      · have : c = '_' := by simpa using h
        rw [this]
        decide
      · exact ih c h
    · next hp =>
      rcases List.mem_cons.1 hc with h | h
      · rw [h]
        intro hd
        apply hp
        rw [hd]
        cases rest <;> rfl
      · exact ih c h

end Userd
